import Mathlib

/-!
# MDLlife/bbs: board instance, content view, follow view and request table

A shallow embedding of

* `src/store/state/views/content_view/rep.go` (`VotesRep`),
* `src/store/state/views/content_view/view.go` (`ContentView`),
* `src/store/state/views/follow_view/view.go` (`FollowView`),
* `src/store/state/board_instance.go` (`BoardInstance`),
* `src/msgs/incomplete.go` (`Incomplete`).

Go maps are finite association lists with unique keys (`GoMap`), Go buffered
channels are FIFO lists with a capacity (`Chan`), a method that mutates its
receiver returns the new receiver, and a Go `error` result is an `Option Error`
(`none` is `nil`).  Hashes and public keys are compared for equality only and are
strings here.  Go `int` counters are integers: a counter moves by one per vote, so
the 64-bit range is never left.  A call that can panic answers an `Outcome`, and
`WaitSeq`, which waits on a ticker and a context, runs over the list of events its
select receives.
-/

namespace BBS

/-! ## Go maps -/

/-- A Go map: association list, read by first match, written in place. -/
structure GoMap (κ : Type) (ν : Type) where
  entries : List (κ × ν)
deriving DecidableEq, Repr

namespace GoMap

variable {κ ν : Type} [DecidableEq κ]

/-- The map made by `make(map[K]V)`. -/
def empty : GoMap κ ν := ⟨[]⟩

/-- Lookup in an association list. -/
def lookup (k : κ) : List (κ × ν) → Option ν
  | [] => none
  | (a, b) :: m => if a = k then some b else lookup k m

/-- Write in an association list: overwrite the entry of `k`, or add one. -/
def insert (k : κ) (v : ν) : List (κ × ν) → List (κ × ν)
  | [] => [(k, v)]
  | (a, b) :: m => if a = k then (k, v) :: m else (a, b) :: insert k v m

/-- Go `v, ok := m[k]`: `none` when `k` is not a key. -/
def get? (m : GoMap κ ν) (k : κ) : Option ν := lookup k m.entries

/-- Go `_, has := m[k]`. -/
def has (m : GoMap κ ν) (k : κ) : Bool := (m.get? k).isSome

/-- Go `m[k] = v`. -/
def set (m : GoMap κ ν) (k : κ) (v : ν) : GoMap κ ν := ⟨insert k v m.entries⟩

/-- Removal from an association list: drop the entries of `k`. -/
def erase (k : κ) : List (κ × ν) → List (κ × ν)
  | [] => []
  | (a, b) :: m => if a = k then erase k m else (a, b) :: erase k m

/-- Go `delete(m, k)`. -/
def delete (m : GoMap κ ν) (k : κ) : GoMap κ ν := ⟨erase k m.entries⟩

/-- The keys, in entry order. -/
def keys (m : GoMap κ ν) : List κ := m.entries.map Prod.fst

end GoMap

/-! ## Go buffered channels -/

/-- A buffered channel nobody is blocked on: capacity, queued values (oldest
first) and the closed mark. -/
structure Chan (α : Type) where
  cap : Nat
  buf : List α
  closed : Bool
deriving DecidableEq, Repr

namespace Chan

variable {α : Type}

/-- Go `make(chan T, cap)`. -/
def make (cap : Nat) : Chan α := ⟨cap, [], false⟩

/-- Go `select { case c <- x: ... default: ... }`: the send is taken when the
buffer has room, `none` is the `default` branch. -/
def trySend (c : Chan α) (x : α) : Option (Chan α) :=
  if c.buf.length < c.cap then some ⟨c.cap, c.buf ++ [x], c.closed⟩ else none

/-- Go `close(c)`. -/
def close (c : Chan α) : Chan α := ⟨c.cap, c.buf, true⟩

end Chan

/-! ## Errors (`misc/boo`) -/

/-- Modelled from the spec: the error kinds of `misc/boo` (not among the sources)
that the embedded code raises; `External` stands for an error of the object store
passed through unchanged. -/
inductive ErrType where
  | AlreadyExists
  | NotFound
  | NotAllowed
  | Internal
  | InvalidDiff
  | External
deriving DecidableEq, Repr

/-- Modelled from the spec: a `boo` error (`boo.Newf`, `boo.WrapType`), a kind and
a message, possibly wrapping a cause. -/
inductive Error where
  | Newf (typ : ErrType) (msg : String)
  | WrapType (cause : Error) (typ : ErrType) (msg : String)
deriving DecidableEq, Repr

/-- The kind of an error (the outermost one). -/
def Error.typ : Error → ErrType
  | .Newf t _ => t
  | .WrapType _ t _ => t

/-! ## Content (`store/object/revisions/r0`) -/

/-- Modelled from the spec: the content tags of `r0` (not among the sources) the
views dispatch on; `Other` is any further tag. -/
inductive ContentType where
  | V5BoardType
  | V5ThreadType
  | V5PostType
  | V5ThreadVoteType
  | V5PostVoteType
  | V5UserVoteType
  | Other (name : String)
deriving DecidableEq, Repr

/-- Modelled from the spec: the header of a content item, what `GetHeader()`
answers: tag and content hash. -/
structure ContentHeader where
  Typ : ContentType
  Hash : String
deriving DecidableEq, Repr

/-- Modelled from the spec: the body of a content item, what `GetBody()` answers,
with the fields the views read. -/
structure Body where
  Typ : ContentType
  Creator : String
  OfThread : String
  OfPost : String
  Value : Int
  Tag : String
deriving DecidableEq, Repr

/-- Modelled from the spec: a content item of `r0`, a header and a body. -/
structure Content where
  Header : ContentHeader
  Body : Body
deriving DecidableEq, Repr

/-- Modelled from the spec: `r0.ContentRep` (not among the sources), the flattened
read-model copy of a content item. -/
structure ContentRep where
  of : Content
deriving DecidableEq, Repr

/-- Modelled from the spec: the `ToRep()` of a board, thread or post, a fresh copy
that is never nil. -/
def Content.ToRep (c : Content) : ContentRep := ⟨c⟩

/-! ## Votes (`content_view/rep.go`) -/

/-- The fields of `object.Vote` that `VotesRep` reads. -/
structure Vote where
  Creator : String
  Mode : Int
  Tag : String
deriving DecidableEq, Repr

/-- The vote carried by a vote-tagged content item: `view.go` hands the item to
`VotesRep.Add`, which reads a creator and a mode. -/
def Content.ToVote (c : Content) : Vote := ⟨c.Body.Creator, c.Body.Value, c.Body.Tag⟩

/-- Struct `VotesRep` of rep.go. -/
structure VotesRep where
  Ref : String
  Votes : GoMap String Vote
  UpCount : Int
  DownCount : Int
deriving DecidableEq, Repr

namespace VotesRep

/-- Go `new(VotesRep)`: the zero value. -/
def new : VotesRep := ⟨"", GoMap.empty, 0, 0⟩

/-- Method `VotesRep.Fill` (rep.go 175-179). -/
def Fill (r : VotesRep) (hash : String) : VotesRep :=
  { r with Ref := hash, Votes := GoMap.empty }

/-- First switch of `VotesRep.Add` (rep.go 182-189): take back the old vote. -/
def retractOld (r : VotesRep) (vote : Vote) : VotesRep :=
  match r.Votes.get? vote.Creator with
  | some oldVote =>
    if oldVote.Mode = 1 then { r with UpCount := r.UpCount - 1 }
    else if oldVote.Mode = -1 then { r with DownCount := r.DownCount - 1 }
    else r
  | none => r

/-- Method `VotesRep.Add` (rep.go 181-199). -/
def Add (r : VotesRep) (vote : Vote) : VotesRep :=
  let r1 := retractOld r vote
  let r2 : VotesRep := { r1 with Votes := r1.Votes.set vote.Creator vote }
  if vote.Mode = 1 then { r2 with UpCount := r2.UpCount + 1 }
  else if vote.Mode = -1 then { r2 with DownCount := r2.DownCount + 1 }
  else if vote.Mode = 0 then { r2 with Votes := r2.Votes.delete vote.Creator }
  else r2

end VotesRep

/-! ## Snapshots and the object store (external collaborators) -/

/-- A root of the object store: `skyobject.Root`, of which the code reads the
public key and the sequence number (Go `uint64`, only compared). -/
structure Root where
  Pub : String
  Seq : Nat
deriving DecidableEq, Repr

/-- The board page of a snapshot: what `GetBoard()` answers. -/
structure BoardPage where
  GetBoard : Except Error Content

/-- A user profile of the users page: its submissions in scan order. -/
structure UserProfile where
  Submissions : List Content

/-- The pages of a snapshot (`r0.Pages`). -/
structure Pages where
  BoardPage : BoardPage
  UsersPage : List UserProfile

/-- An unpacked snapshot (`skyobject.Pack`), by what the code observes of it: its
root, what `r0.GetPages` answers on it, and the content items it holds, in
arrival order. -/
structure Pack where
  root : Root
  GetPages : Except Error Pages
  contents : List Content

/-- Modelled from the spec: `object.Changes` (not among the sources), the summary
of a diff handed to views and subscribers; the views read its field `New`. -/
structure Changes where
  New : List Content
deriving DecidableEq, Repr

/-- Modelled from the spec: `pack.Headers` (not among the sources), the headers of
a pack instance, holding the diff. -/
structure Headers where
  changes : Changes
deriving DecidableEq, Repr

/-- Modelled from the spec: `Headers.GetChanges()` answers the diff. -/
def Headers.GetChanges (h : Headers) : Changes := h.changes

/-- The pair of a snapshot and its diff; the fields `pack` and `headers` are the
ones board_instance.go reads. -/
structure PackInstance where
  pack : Pack
  headers : Headers

/-- Modelled from the spec: `PackInstance.Do` (pack_instance.go is not among the
sources) hands the caller the (snapshot, diff) pair for one synchronous callback. -/
def PackInstance.Do {α : Type} (pi : PackInstance) (action : Pack → Headers → α) : α :=
  action pi.pack pi.headers

/-- Modelled from the spec: the diff of `NewPackInstance` (pack_instance.go and
`pack.Headers` are not among the sources): every content item of the snapshot when
there is no predecessor, otherwise the items of the snapshot whose hash the
predecessor does not hold, in the snapshot's order. -/
def newHeaders (oldPI : Option PackInstance) (p : Pack) : Headers :=
  match oldPI with
  | none => ⟨⟨p.contents⟩⟩
  | some old =>
    ⟨⟨p.contents.filter
        (fun c => decide (c.Header.Hash ∉ old.pack.contents.map (fun o => o.Header.Hash)))⟩⟩

/-- Modelled from the spec: `NewPackInstance` (pack_instance.go is not among the
sources) wraps a snapshot with its diff against the prior pack instance, and fails
with `InvalidDiff` if the new snapshot's sequence number is not strictly greater
than the previous one. -/
def NewPackInstance (oldPI : Option PackInstance) (p : Pack) : Except Error PackInstance :=
  match oldPI with
  | none => .ok ⟨p, newHeaders none p⟩
  | some old =>
    if old.pack.root.Seq < p.root.Seq then .ok ⟨p, newHeaders (some old) p⟩
    else .error (.Newf .InvalidDiff "new pack is not ahead of the old pack")

/-- The node of the object store, by its answers during one call: `Unpack` of a
root (for the flags and key of the instance), `Save` of a pack (which may change
the pack it is called on), and `LastFull` of a board key after the given root was
published. -/
structure Node where
  Unpack : Root → Except Error Pack
  Save : Pack → Pack × Option Error
  LastFull : Root → String → Except Error Root

/-! ## ContentView (`content_view/view.go`) -/

/-- Struct `indexPage` of view.go. -/
structure indexPage where
  Board : String
  Threads : List String
  Posts : GoMap String (List String)
deriving DecidableEq, Repr

/-- Struct `ContentView` of view.go (the mutex apart). -/
structure ContentView where
  pk : String
  i : indexPage
  c : GoMap String ContentRep
  v : GoMap String VotesRep
deriving DecidableEq, Repr

namespace ContentView

/-- Lines 156-164 of `processVote`: fetch or create the `VotesRep` under `cHash`
and add the vote to it.  view.go writes `Fill(cType, cHash)` and `Add(c)`; the
`Fill` of rep.go takes the hash only and its `Add` the vote of the item. -/
def addToVotesMap (v : ContentView) (cHash : String) (c : Content) : ContentView :=
  let voteRep := match v.v.get? cHash with
    | some r => r
    | none => VotesRep.new.Fill cHash
  { v with v := v.v.set cHash (voteRep.Add c.ToVote) }

/-- Method `ContentView.processVote` (view.go 132-165). -/
def processVote (v : ContentView) (c : Content) : ContentView × Option Error :=
  match c.Header.Typ with
  | .V5ThreadVoteType =>
    if (v.c.get? c.Body.OfThread).isNone then (v, none)
    else (v.addToVotesMap c.Header.Hash c, none)
  | .V5PostVoteType =>
    if (v.c.get? c.Body.OfPost).isNone then (v, none)
    else (v.addToVotesMap c.Header.Hash c, none)
  | .V5UserVoteType => (v, none)
  | _ => (v, none)

/-- One turn of the loop of `ContentView.Update` (view.go 110-128). -/
def updateItem (v : ContentView) (content : Content) : ContentView :=
  match content.Header.Typ with
  | .V5ThreadType =>
    { v with i := { v.i with Threads := v.i.Threads ++ [content.Header.Hash] },
             c := v.c.set content.Header.Hash content.ToRep }
  | .V5PostType =>
    let posts := (v.i.Posts.get? content.Body.OfThread).getD []
    { v with i := { v.i with
                    Posts := v.i.Posts.set content.Body.OfThread (posts ++ [content.Header.Hash]) },
             c := v.c.set content.Header.Hash content.ToRep }
  | .V5ThreadVoteType => (v.processVote content).1
  | .V5PostVoteType => (v.processVote content).1
  | _ => v

/-- Lines 104-106 of `ContentView.Update`: replace the board. -/
def setBoard (v : ContentView) (board : Content) : ContentView :=
  let c1 := v.c.delete v.i.Board
  { v with i := { v.i with Board := board.Header.Hash },
           c := c1.set board.Header.Hash board.ToRep }

/-- Method `ContentView.Update` (view.go 92-130). -/
def Update (v : ContentView) (pack : Pack) (headers : Headers) : ContentView × Option Error :=
  match pack.GetPages with
  | .error e => (v, some e)
  | .ok pages =>
    match pages.BoardPage.GetBoard with
    | .error e => (v, some e)
    | .ok board => (headers.GetChanges.New.foldl updateItem (v.setBoard board), none)

/-- The hashes of the Thread-tagged items of a diff, in diff order. -/
def threadHashes (l : List Content) : List String :=
  (l.filter (fun c => decide (c.Header.Typ = .V5ThreadType))).map (fun c => c.Header.Hash)

/-- The hashes of the Post-tagged items of a diff whose `OfThread` is `t`, in diff
order. -/
def postHashesOf (t : String) (l : List Content) : List String :=
  (l.filter (fun c => decide (c.Header.Typ = .V5PostType ∧ c.Body.OfThread = t))).map
    (fun c => c.Header.Hash)

/-- The tags `ContentView.Update` has a case for. -/
def dispatched (c : Content) : Bool :=
  decide (c.Header.Typ = .V5ThreadType ∨ c.Header.Typ = .V5PostType ∨
    c.Header.Typ = .V5ThreadVoteType ∨ c.Header.Typ = .V5PostVoteType)

end ContentView

/-! ## FollowView (`follow_view/view.go`) -/

/-- Modelled from the spec: `FollowRep` (its file is not among the sources), the
latest follow signal (value and tag) recorded per public key, last write wins. -/
structure FollowRep where
  UserPubKey : String
  signals : GoMap String (Int × String)
deriving DecidableEq, Repr

/-- Modelled from the spec: `NewFollowRep`, an empty rep of a user. -/
def NewFollowRep (upk : String) : FollowRep := ⟨upk, GoMap.empty⟩

/-- Modelled from the spec: `FollowRep.Set` overwrites the signal recorded for a
key with the new value and tag. -/
def FollowRep.Set (r : FollowRep) (upk : String) (value : Int) (tag : String) : FollowRep :=
  { r with signals := r.signals.set upk (value, tag) }

/-- Struct `FollowView` of follow_view/view.go. -/
structure FollowView where
  uMap : GoMap String FollowRep
deriving DecidableEq, Repr

namespace FollowView

/-- The body of the loops of `FollowView.Init` and `FollowView.Update`
(view.go 27-41 and 51-64). -/
def processContent (v : FollowView) (c : Content) : FollowView :=
  let cBody := c.Body
  if cBody.Typ = .V5UserVoteType then
    let followRep := match v.uMap.get? cBody.Creator with
      | some r => r
      | none => NewFollowRep cBody.Creator
    ⟨v.uMap.set cBody.Creator (followRep.Set cBody.Creator cBody.Value cBody.Tag)⟩
  else v

/-- Method `FollowView.Update` (view.go 48-68). -/
def Update (v : FollowView) (_pack : Pack) (headers : Headers) : FollowView × Option Error :=
  (headers.GetChanges.New.foldl processContent v, none)

end FollowView

/-! ## BoardInstance (`store/state/board_instance.go`) -/

/-- Modelled from the spec: a registered view (the interface `views.View` is not
among the sources), one of the two variants ContentView and FollowView. -/
inductive View where
  | content (v : ContentView)
  | follow (v : FollowView)
deriving DecidableEq, Repr

/-- The `Update` of a view, dispatched on the variant. -/
def View.Update (view : View) (pack : Pack) (headers : Headers) : View × Option Error :=
  match view with
  | .content v => (.content (v.Update pack headers).1, (v.Update pack headers).2)
  | .follow v => (.follow (v.Update pack headers).1, (v.Update pack headers).2)

/-- Struct `BoardInstanceConfig`. -/
structure BoardInstanceConfig where
  Master : Bool
  PK : String
  SK : String
deriving DecidableEq, Repr

/-- Struct `BoardInstance` (logger, flag and mutexes apart).  The registry `views`
is ranged over in entry order: Go leaves the order of a map range unspecified, and
the order of the entries stands for the order one run takes. -/
structure BoardInstance where
  c : BoardInstanceConfig
  pi : PackInstance
  views : GoMap String View
  changesChan : Chan Changes
  needUpdate : Bool

namespace BoardInstance

/-- The loop "Update views" of `Update` (board_instance.go 126-131): views are
updated in place, one after the other, and the first failure returns at once. -/
def updateViews (pack : Pack) (headers : Headers) :
    List (String × View) → List (String × View) × Option Error
  | [] => ([], none)
  | (id, view) :: rest =>
    match (view.Update pack headers).2 with
    | some e =>
      ((id, (view.Update pack headers).1) :: rest,
        some (.WrapType e .Internal "failed to update view"))
    | none =>
      ((id, (view.Update pack headers).1) :: (updateViews pack headers rest).1,
        (updateViews pack headers rest).2)

/-- The loop "Broadcast changes" of `Update` (board_instance.go 136-144) on the
buffer of a channel of capacity `cap` that nobody else uses: send if there is
room, otherwise receive the oldest value and try again.  `none` means the loop
blocks for ever (a receive on an empty channel). -/
def broadcastLoop {α : Type} (cap : Nat) (changes : α) : List α → Option (List α)
  | [] => if 0 < cap then some [changes] else none
  | x :: q =>
    if (x :: q).length < cap then some ((x :: q) ++ [changes])
    else broadcastLoop cap changes q

/-- The broadcast step on the channel. -/
def broadcast {α : Type} (ch : Chan α) (changes : α) : Option (Chan α) :=
  (broadcastLoop ch.cap changes ch.buf).map (fun q => ⟨ch.cap, q, ch.closed⟩)

/-- Method `ChangePack` (board_instance.go 196-205).  The closure runs on the instance
(it captures it) and answers the instance as it left it together with its result;
`none` means the closure does not return. -/
def ChangePack (bi : BoardInstance)
    (change : BoardInstance → Option (BoardInstance × Except Error PackInstance)) :
    Option (BoardInstance × Option Error) :=
  match change bi with
  | none => none
  | some (bi1, .error e) => some (bi1, some e)
  | some (bi1, .ok pi) => some ({ bi1 with pi := pi }, none)

/-- Lines 114-148 of `Update`: unpack the root, build the new pack instance,
update the views, broadcast the changes. -/
def applyRoot (bi : BoardInstance) (node : Node) (root : Root) :
    Option (BoardInstance × Except Error PackInstance) :=
  match node.Unpack root with
  | .error e => some (bi, .error e)
  | .ok newPack =>
    match NewPackInstance (some bi.pi) newPack with
    | .error e => some (bi, .error e)
    | .ok newPI =>
      match updateViews newPI.pack newPI.headers bi.views.entries with
      | (views1, some e) => some ({ bi with views := ⟨views1⟩ }, .error e)
      | (views1, none) =>
        match newPI.Do (fun _ h => broadcast bi.changesChan h.GetChanges) with
        | none => none
        | some ch => some ({ bi with views := ⟨views1⟩, changesChan := ch }, .ok newPI)

/-- Method `BoardInstance.Update` (board_instance.go 91-150); `root = none` is the nil
root. -/
def Update (bi : BoardInstance) (node : Node) (root : Option Root) :
    Option (BoardInstance × Option Error) :=
  bi.ChangePack (fun bi =>
    match root with
    | none =>
      if bi.c.Master then
        let saved := node.Save bi.pi.pack
        let bi1 : BoardInstance := { bi with pi := ⟨saved.1, bi.pi.headers⟩ }
        match saved.2 with
        | some e => some (bi1, .error e)
        | none =>
          match node.LastFull saved.1.root bi.c.PK with
          | .error e => some (bi1, .error e)
          | .ok r => bi1.applyRoot node r
      else some (bi, .ok bi.pi)
    | some r => bi.applyRoot node r)

/-- Method `PackRead` (board_instance.go 207-213). -/
def PackRead {α : Type} (bi : BoardInstance) (action : Pack → Headers → α) : α :=
  bi.pi.Do action

/-- Method `GetSeq` (board_instance.go 232-239). -/
def GetSeq (bi : BoardInstance) : Nat :=
  bi.PackRead (fun p _ => p.root.Seq)

/-- Successive `Update` calls with supplied roots, stopping at the first call that
fails or does not return. -/
def updateAll (node : Node) : BoardInstance → List Root → Option (BoardInstance × Option Error)
  | bi, [] => some (bi, none)
  | bi, r :: rs =>
    match bi.Update node (some r) with
    | some (bi1, none) => updateAll node bi1 rs
    | other => other

end BoardInstance

/-! ## Incomplete (`msgs/incomplete.go`) -/

/-- A response, of which the table reads the hash. -/
structure BBSResponse where
  Hash : String
  payload : String
deriving DecidableEq, Repr

/-- Struct `Incomplete` (the mutex apart): the channel of a request lives in its
entry. -/
structure Incomplete where
  store : GoMap String (Chan BBSResponse)
deriving DecidableEq, Repr

namespace Incomplete

/-- Function `NewIncomplete`. -/
def NewIncomplete : Incomplete := ⟨GoMap.empty⟩

/-- Method `Incomplete.Add` (incomplete.go 25-35). -/
def Add (i : Incomplete) (hash : String) : Incomplete × Except Error (Chan BBSResponse) :=
  if i.store.has hash then
    (i, .error (.Newf .AlreadyExists ("request " ++ hash ++ " already exists")))
  else
    let out : Chan BBSResponse := Chan.make 1
    (⟨i.store.set hash out⟩, .ok out)

/-- Method `Incomplete.Remove` (incomplete.go 37-44): the closed channel leaves the
table. -/
def Remove (i : Incomplete) (hash : String) : Incomplete :=
  match i.store.get? hash with
  | some _ => ⟨i.store.delete hash⟩
  | none => i

/-- Method `Incomplete.Satisfy` (incomplete.go 46-56). -/
def Satisfy (i : Incomplete) (res : BBSResponse) : Incomplete :=
  match i.store.get? res.Hash with
  | some c =>
    match c.trySend res with
    | some c1 => ⟨i.store.set res.Hash c1⟩
    | none => i
  | none => i

end Incomplete

/-! ## Concrete inputs -/

namespace Sample

/-- A thread with hash "T". -/
def thread : Content := ⟨⟨.V5ThreadType, "T"⟩, ⟨.V5ThreadType, "U", "", "", 0, ""⟩⟩

/-- An up-vote with hash "V1" by voter "A" on thread "T". -/
def voteA : Content := ⟨⟨.V5ThreadVoteType, "V1"⟩, ⟨.V5ThreadVoteType, "A", "T", "", 1, ""⟩⟩

/-- An up-vote with hash "V2" by voter "B" on thread "T". -/
def voteB : Content := ⟨⟨.V5ThreadVoteType, "V2"⟩, ⟨.V5ThreadVoteType, "B", "T", "", 1, ""⟩⟩

/-- An up-vote with hash "V3" by voter "A" on a post "P" that no view holds. -/
def voteLost : Content := ⟨⟨.V5PostVoteType, "V3"⟩, ⟨.V5PostVoteType, "A", "", "P", 1, ""⟩⟩

/-- A board with hash "B". -/
def board : Content := ⟨⟨.V5BoardType, "B"⟩, ⟨.V5BoardType, "U", "", "", 0, ""⟩⟩

/-- The board after an edit, with hash "B2". -/
def boardEdited : Content := ⟨⟨.V5BoardType, "B2"⟩, ⟨.V5BoardType, "U", "", "", 0, ""⟩⟩

/-- A content view of board "B" holding the thread "T" and no vote. -/
def view : ContentView :=
  ⟨"pk", ⟨"B", ["T"], ⟨[("T", [])]⟩⟩, ⟨[("B", board.ToRep), ("T", thread.ToRep)]⟩,
    GoMap.empty⟩

/-- A snapshot of sequence number 2 whose board is the edited one. -/
def packEdited : Pack := ⟨⟨"pk", 2⟩, .ok ⟨⟨.ok boardEdited⟩, []⟩, [boardEdited, thread]⟩

/-- A snapshot of sequence number 2 with the board "B". -/
def packSame : Pack := ⟨⟨"pk", 2⟩, .ok ⟨⟨.ok board⟩, []⟩, [board, thread]⟩

/-- Headers with an empty diff. -/
def headersEmpty : Headers := ⟨⟨[]⟩⟩

/-- A second thread, with hash "T2". -/
def thread2 : Content := ⟨⟨.V5ThreadType, "T2"⟩, ⟨.V5ThreadType, "U", "", "", 0, ""⟩⟩

/-- A post with hash "P1" of thread "T". -/
def post : Content := ⟨⟨.V5PostType, "P1"⟩, ⟨.V5PostType, "U", "T", "", 0, ""⟩⟩

/-- A user vote with hash "F1" by "A". -/
def userVote : Content := ⟨⟨.V5UserVoteType, "F1"⟩, ⟨.V5UserVoteType, "A", "", "", 1, "friend"⟩⟩

/-- Headers whose diff is a thread, a post, a thread vote and a user vote. -/
def headersMixed : Headers := ⟨⟨[thread2, post, voteA, userVote]⟩⟩

/-- The sample view after the update with `packSame` and `headersMixed`. -/
def viewMixed : ContentView := (view.Update packSame headersMixed).1

/-- The sample view after the update with `packSame` and an empty diff. -/
def viewSame : ContentView := (view.Update packSame headersEmpty).1

end Sample

namespace BoardInstance

/-- The channel `NewBoardInstance` makes (board_instance.go 55):
`make(chan *object.Changes, 10)`. -/
def newChangesChan : Chan Changes := Chan.make 10

/-- Successive broadcasts on a channel nobody drains, oldest notification first. -/
def broadcastAll {α : Type} : Chan α → List α → Option (Chan α)
  | ch, [] => some ch
  | ch, x :: xs =>
    match broadcast ch x with
    | none => none
    | some ch1 => broadcastAll ch1 xs

end BoardInstance

namespace Sample

/-- The installed snapshot, of sequence number 1. -/
def pack1 : Pack := ⟨⟨"pk", 1⟩, .ok ⟨⟨.ok board⟩, []⟩, [board, thread]⟩

/-- A snapshot of sequence number 2 that holds a new user vote and on which
`r0.GetPages` fails. -/
def packBroken : Pack :=
  ⟨⟨"pk", 2⟩, .error (.Newf .External "no pages"), [board, thread, userVote]⟩

/-- A snapshot of sequence number 3 that holds a new user vote. -/
def pack3 : Pack := ⟨⟨"pk", 3⟩, .ok ⟨⟨.ok board⟩, []⟩, [board, thread, userVote]⟩

/-- The root of sequence number 1. -/
def root1 : Root := ⟨"pk", 1⟩

/-- The root of sequence number 2. -/
def root2 : Root := ⟨"pk", 2⟩

/-- The root of sequence number 3. -/
def root3 : Root := ⟨"pk", 3⟩

/-- A store that unpacks the three roots to the three snapshots. -/
def node : Node :=
  ⟨fun r =>
      if r.Seq = 1 then .ok pack1
      else if r.Seq = 2 then .ok packBroken
      else if r.Seq = 3 then .ok pack3
      else .error (.Newf .External "unknown root"),
    fun p => (p, none),
    fun _ _ => .error (.Newf .External "no full root")⟩

/-- A board instance on snapshot 1 with a follow view and a content view, ranged
over in this order. -/
def bi : BoardInstance :=
  ⟨⟨false, "pk", "sk"⟩, ⟨pack1, ⟨⟨[]⟩⟩⟩,
    ⟨[("follow", .follow ⟨GoMap.empty⟩), ("content", .content view)]⟩,
    BoardInstance.newChangesChan, false⟩

/-- The follow view once it has seen the user vote of "A". -/
def followSeen : FollowView := ⟨⟨[("A", ⟨"A", ⟨[("A", (1, "friend"))]⟩⟩)]⟩⟩

/-- The instance after the failed update to root 2: the follow view has moved. -/
def biFailed : BoardInstance :=
  { bi with views := ⟨[("follow", .follow followSeen), ("content", .content view)]⟩ }

/-- The instance after the update to root 3. -/
def biNext : BoardInstance :=
  match bi.Update node (some root3) with
  | some (b, _) => b
  | none => bi

end Sample

/-! ## Queries: `Get` of the views and of the board instance -/

/-- A Go value of type `interface{}` as the queries receive it: a string, an
integer, or a slice of such values. -/
inductive Value where
  | str (s : String)
  | int (n : Int)
  | slice (items : List Value)

/-- What a Go call does: it returns a value, or the goroutine panics. -/
inductive Outcome (α : Type) where
  | ret (a : α)
  | panic (msg : String)
deriving DecidableEq, Repr

/-- Modelled from the spec: `FollowRepView` (its file is not among the sources),
what a follow query answers: the user's key and the recorded signals.  The source
builds the empty one as `&FollowRepView{UserPubKey: upk}`. -/
structure FollowRepView where
  UserPubKey : String
  signals : GoMap String (Int × String)
deriving DecidableEq, Repr

/-- Modelled from the spec: `FollowRep.View()`, the view of a user's rep. -/
def FollowRep.View (r : FollowRep) : FollowRepView := ⟨r.UserPubKey, r.signals⟩

namespace FollowView

/-- The query id `FollowPage` (view.go 70-72). -/
def FollowPage : String := "FollowPage"

/-- Method `FollowView.Get` (view.go 74-88).  The first statement, `a[0].(string)`,
runs before the switch: it panics on an empty argument list (index out of range)
and on a first argument that is not a string (interface conversion). -/
def Get (v : FollowView) (id : String) (a : List Value) :
    Outcome (Option FollowRepView × Option Error) :=
  match a with
  | [] => .panic "index out of range"
  | .str upk :: _ =>
    if id = FollowPage ∧ a.length = 1 then
      match v.uMap.get? upk with
      | none => .ret (some ⟨upk, GoMap.empty⟩, none)
      | some fr => .ret (some fr.View, none)
    else .ret (none, some (.Newf .NotAllowed ("invalid get request " ++ id)))
  | _ :: _ => .panic "interface conversion"

/-- The body of the callback of `FollowView.Init` (view.go 27-43), statement by
statement: ensure the creator's rep exists in the map, then `Set` on it. -/
def initSubmission (v : FollowView) (c : Content) : FollowView :=
  let cBody := c.Body
  if cBody.Typ = .V5UserVoteType then
    let v1 : FollowView :=
      if v.uMap.has cBody.Creator then v
      else ⟨v.uMap.set cBody.Creator (NewFollowRep cBody.Creator)⟩
    match v1.uMap.get? cBody.Creator with
    | some followRep =>
      ⟨v1.uMap.set cBody.Creator (followRep.Set cBody.Creator cBody.Value cBody.Tag)⟩
    | none => v1
  else v

/-- Modelled from the spec: `RangeUserProfiles` and `RangeSubmissions` (`r0`, not
among the sources) scan the profiles in order and, in each, the submissions in
order; the callback of `Init` never fails, so the scan runs to the end. -/
def rangeUserProfiles (profiles : List UserProfile) (v : FollowView) : FollowView :=
  profiles.foldl (fun w profile => profile.Submissions.foldl initSubmission w) v

/-- Method `FollowView.Init` (view.go 14-46): the map is made anew before the
pages are read. -/
def Init (_v : FollowView) (pack : Pack) (_headers : Headers) : FollowView × Option Error :=
  let v1 : FollowView := ⟨GoMap.empty⟩
  match pack.GetPages with
  | .error e => (v1, some e)
  | .ok pages => (rangeUserProfiles pages.UsersPage v1, none)

end FollowView

/-- The submissions of a snapshot's users in scan order. -/
def Pages.submissions (pages : Pages) : List Content :=
  (pages.UsersPage.map (fun profile => profile.Submissions)).flatten

/-- The `Get` of a view, dispatched on the variant.  The `Get` of ContentView is
not among the sources and is taken as the parameter `contentGet`. -/
def View.Get {ρ : Type}
    (contentGet : ContentView → String → List Value → Outcome (Option ρ × Option Error))
    (view : View) (id : String) (a : List Value) :
    Outcome (Option (FollowRepView ⊕ ρ) × Option Error) :=
  match view with
  | .content v =>
    match contentGet v id a with
    | .ret (r, e) => .ret (r.map Sum.inr, e)
    | .panic msg => .panic msg
  | .follow v =>
    match v.Get id a with
    | .ret (r, e) => .ret (r.map Sum.inl, e)
    | .panic msg => .panic msg

namespace BoardInstance

/-- Method `BoardInstance.Get` (board_instance.go 157-167).  The last line is
`v.Get(cmdID, a)`, not `v.Get(cmdID, a...)`: the view's variadic parameter
receives one argument, the slice `a` itself. -/
def Get {ρ : Type}
    (contentGet : ContentView → String → List Value → Outcome (Option ρ × Option Error))
    (bi : BoardInstance) (viewID cmdID : String) (a : List Value) :
    Outcome (Option (FollowRepView ⊕ ρ) × Option Error) :=
  match bi.views.get? viewID with
  | none => .ret (none, some (.Newf .NotFound ("view of id " ++ viewID ++ " not found")))
  | some v => v.Get contentGet cmdID [Value.slice a]

/-- One thing `WaitSeq` can receive in its select: the context is done (with its
error), or the ticker fires, and then the instance is read as it is by then. -/
inductive WaitEvent where
  | ctxDone (err : Error)
  | tick (now : BoardInstance)

/-- The loop of `WaitSeq` (board_instance.go 249-258) over the events the select
receives, in order; `none` means it is still waiting when they are used up. -/
def waitLoop (goal : Nat) : List WaitEvent → Option (Option Error)
  | [] => none
  | .ctxDone err :: _ => some (some err)
  | .tick now :: rest => if now.GetSeq ≥ goal then some none else waitLoop goal rest

/-- Method `WaitSeq` (board_instance.go 241-259): the first check runs before the
ticker is made and before the context is looked at. -/
def WaitSeq (bi : BoardInstance) (goal : Nat) (events : List WaitEvent) :
    Option (Option Error) :=
  if bi.GetSeq ≥ goal then some none else waitLoop goal events

end BoardInstance

namespace Sample

/-- A request table with the open request "h1", not yet answered, and the request
"h2", already answered. -/
def table : Incomplete :=
  ⟨⟨[("h1", Chan.make 1), ("h2", ⟨1, [⟨"h2", "done"⟩], false⟩)]⟩⟩

/-- A first response to the request "h1". -/
def res1 : BBSResponse := ⟨"h1", "first"⟩

/-- A second response to the request "h1". -/
def res2 : BBSResponse := ⟨"h1", "second"⟩

/-- A response to a request "h3" that the table does not hold. -/
def resStray : BBSResponse := ⟨"h3", "stray"⟩

end Sample

namespace Sample

/-- A stand-in for the `Get` of ContentView, which answers nothing. -/
def contentGet (_v : ContentView) (_id : String) (_a : List Value) :
    Outcome (Option Unit × Option Error) :=
  .ret (none, none)

end Sample

namespace Sample

/-- A later user vote with hash "F2" by "A", with another value and tag. -/
def userVote2 : Content :=
  ⟨⟨.V5UserVoteType, "F2"⟩, ⟨.V5UserVoteType, "A", "", "", -1, "foe"⟩⟩

/-- A snapshot with two users: the first submitted a user vote and a thread vote,
the second a later user vote of the same creator. -/
def packUsers : Pack :=
  ⟨⟨"pk", 4⟩, .ok ⟨⟨.ok board⟩, [⟨[userVote, voteA]⟩, ⟨[userVote2]⟩]⟩,
    [board, thread, userVote, voteA, userVote2]⟩

/-- The pages of `packUsers`. -/
def pagesUsers : Pages := ⟨⟨.ok board⟩, [⟨[userVote, voteA]⟩, ⟨[userVote2]⟩]⟩

end Sample

/-! ## Tallies read off the votes map -/

namespace GoMap

variable {κ ν : Type} [DecidableEq κ]

/-- The number of entries whose value satisfies `Q`. -/
def count (Q : ν → Bool) (m : List (κ × ν)) : Nat := m.countP (fun p => Q p.2)

/-- One if the value read under `k` satisfies `Q`, zero otherwise. -/
def hit (Q : ν → Bool) (k : κ) (m : List (κ × ν)) : Nat :=
  match lookup k m with
  | some o => if Q o then 1 else 0
  | none => 0

end GoMap

namespace VotesRep

/-- The number of recorded votes of mode `mode`. -/
def countMode (r : VotesRep) (mode : Int) : Nat :=
  GoMap.count (fun x : Vote => decide (x.Mode = mode)) r.Votes.entries

/-- The mode of the vote recorded for a voter, if any. -/
def recordedMode (r : VotesRep) (voter : String) : Option Int :=
  (r.Votes.get? voter).map (fun x => x.Mode)

/-- The tally invariant: the counters are the numbers of recorded votes of mode +1
and -1, no recorded vote has mode 0, and no voter has two entries. -/
def Tallied (r : VotesRep) : Prop :=
  r.UpCount = (r.countMode 1 : Int) ∧ r.DownCount = (r.countMode (-1) : Int)
    ∧ (∀ p ∈ r.Votes.entries, p.2.Mode ≠ 0) ∧ r.Votes.keys.Nodup

end VotesRep

/-! ## The update-needed flag and the pack actions (`board_instance.go` 174-226) -/

/-- Modelled from the spec: `PackAction` (pack_instance.go is not among the
sources), the callback of `PackRead` and `PackEdit`.  It is handed the pack and the
headers of the installed pack instance, may write to both, and returns an error or
nil: here it answers the pack and the headers as it left them and its error. -/
abbrev PackAction : Type := Pack → Headers → Pack × Headers × Option Error

namespace BoardInstance

/-- Method `UpdateNeeded` (board_instance.go 174-178). -/
def UpdateNeeded (bi : BoardInstance) : Bool := bi.needUpdate

/-- Method `SetUpdateNeeded` (board_instance.go 180-184). -/
def SetUpdateNeeded (bi : BoardInstance) : BoardInstance := { bi with needUpdate := true }

/-- Method `ClearUpdateNeeded` (board_instance.go 186-190). -/
def ClearUpdateNeeded (bi : BoardInstance) : BoardInstance := { bi with needUpdate := false }

/-- The instance after `PackRead` (board_instance.go 207-213) ran an action that
writes to what it is handed: the installed pack instance holds what the action
left, and `PackRead` assigns nothing else. -/
def afterPackRead (bi : BoardInstance) (action : PackAction) : BoardInstance :=
  { bi with pi := ⟨(bi.PackRead action).1, (bi.PackRead action).2.1⟩ }

/-- Method `PackEdit` (board_instance.go 215-226): the instance after the call and
the error returned. -/
def PackEdit (bi : BoardInstance) (action : PackAction) : BoardInstance × Option Error :=
  let r := bi.pi.Do (fun p h => action p h)
  let bi1 : BoardInstance := { bi with pi := ⟨r.1, r.2.1⟩ }
  match r.2.2 with
  | some e => (bi1, some e)
  | none => (bi1.SetUpdateNeeded, none)

end BoardInstance

namespace Sample

/-- An edit that succeeds: it raises the sequence number of the pack by one. -/
def editOk : PackAction :=
  fun p h => (⟨⟨p.root.Pub, p.root.Seq + 1⟩, p.GetPages, p.contents⟩, h, none)

/-- An edit that fails without writing. -/
def editFail : PackAction := fun p h => (p, h, some (.Newf .NotAllowed "no edit"))

end Sample

/-! ## Theorems -/

namespace GoMap

variable {κ ν : Type} [DecidableEq κ]

theorem lookup_insert_self (k : κ) (v : ν) (m : List (κ × ν)) :
    lookup k (insert k v m) = some v := by
  induction m with
  | nil => simp [insert, lookup]
  | cons p m ih =>
    obtain ⟨a, b⟩ := p
    by_cases h : a = k
    · simp [insert, lookup, h]
    · simp [insert, lookup, h, ih]

theorem lookup_insert_of_ne {k j : κ} (h : j ≠ k) (v : ν) (m : List (κ × ν)) :
    lookup j (insert k v m) = lookup j m := by
  induction m with
  | nil => simp [insert, lookup, Ne.symm h]
  | cons p m ih =>
    obtain ⟨a, b⟩ := p
    by_cases hk : a = k
    · subst hk
      simp [insert, lookup, Ne.symm h]
    · by_cases hj : a = j
      · subst hj
        simp [insert, lookup, hk]
      · simp [insert, lookup, hk, hj, ih]

theorem lookup_erase_self (k : κ) (m : List (κ × ν)) : lookup k (erase k m) = none := by
  induction m with
  | nil => simp [erase, lookup]
  | cons p m ih =>
    obtain ⟨a, b⟩ := p
    by_cases h : a = k
    · simp [erase, h, ih]
    · simp [erase, h, lookup, ih]

theorem lookup_erase_of_ne {k j : κ} (h : j ≠ k) (m : List (κ × ν)) :
    lookup j (erase k m) = lookup j m := by
  induction m with
  | nil => simp [erase, lookup]
  | cons p m ih =>
    obtain ⟨a, b⟩ := p
    by_cases hk : a = k
    · subst hk
      simp [erase, lookup, Ne.symm h, ih]
    · by_cases hj : a = j
      · subst hj
        simp [erase, lookup, hk]
      · simp [erase, lookup, hk, hj, ih]

theorem get?_set_self (m : GoMap κ ν) (k : κ) (v : ν) : (m.set k v).get? k = some v :=
  lookup_insert_self k v m.entries

theorem get?_set_of_ne (m : GoMap κ ν) {k j : κ} (h : j ≠ k) (v : ν) :
    (m.set k v).get? j = m.get? j :=
  lookup_insert_of_ne h v m.entries

theorem get?_delete_self (m : GoMap κ ν) (k : κ) : (m.delete k).get? k = none :=
  lookup_erase_self k m.entries

theorem get?_delete_of_ne (m : GoMap κ ν) {k j : κ} (h : j ≠ k) :
    (m.delete k).get? j = m.get? j :=
  lookup_erase_of_ne h m.entries

end GoMap

/-! ### C4: vote folding on two fixed sequences -/

/-- C4: from a freshly filled `VotesRep`, one voter voting +1, -1, +1, 0 in that
order ends with both counters at 0 and no entry for the voter (no entry at all);
voting +1, -1, +1 ends with `UpCount = 1`, `DownCount = 0` and the voter's last +1
as the one recorded vote. -/
theorem C4_vote_folding (ref voter t1 t2 t3 t4 : String) :
    (((((VotesRep.new.Fill ref).Add ⟨voter, 1, t1⟩).Add ⟨voter, -1, t2⟩).Add
        ⟨voter, 1, t3⟩).Add ⟨voter, 0, t4⟩).UpCount = 0
    ∧ (((((VotesRep.new.Fill ref).Add ⟨voter, 1, t1⟩).Add ⟨voter, -1, t2⟩).Add
        ⟨voter, 1, t3⟩).Add ⟨voter, 0, t4⟩).DownCount = 0
    ∧ (((((VotesRep.new.Fill ref).Add ⟨voter, 1, t1⟩).Add ⟨voter, -1, t2⟩).Add
        ⟨voter, 1, t3⟩).Add ⟨voter, 0, t4⟩).Votes.get? voter = none
    ∧ (((((VotesRep.new.Fill ref).Add ⟨voter, 1, t1⟩).Add ⟨voter, -1, t2⟩).Add
        ⟨voter, 1, t3⟩).Add ⟨voter, 0, t4⟩).Votes.entries = []
    ∧ ((((VotesRep.new.Fill ref).Add ⟨voter, 1, t1⟩).Add ⟨voter, -1, t2⟩).Add
        ⟨voter, 1, t3⟩).UpCount = 1
    ∧ ((((VotesRep.new.Fill ref).Add ⟨voter, 1, t1⟩).Add ⟨voter, -1, t2⟩).Add
        ⟨voter, 1, t3⟩).DownCount = 0
    ∧ ((((VotesRep.new.Fill ref).Add ⟨voter, 1, t1⟩).Add ⟨voter, -1, t2⟩).Add
        ⟨voter, 1, t3⟩).Votes.get? voter = some ⟨voter, 1, t3⟩
    ∧ ((((VotesRep.new.Fill ref).Add ⟨voter, 1, t1⟩).Add ⟨voter, -1, t2⟩).Add
        ⟨voter, 1, t3⟩).Votes.entries = [(voter, ⟨voter, 1, t3⟩)] := by
  simp [VotesRep.Add, VotesRep.retractOld, VotesRep.Fill, VotesRep.new, GoMap.empty,
    GoMap.get?, GoMap.set, GoMap.delete, GoMap.lookup, GoMap.insert, GoMap.erase]

namespace GoMap

variable {κ ν : Type} [DecidableEq κ]

theorem lookup_eq_none_iff (k : κ) (m : List (κ × ν)) :
    lookup k m = none ↔ k ∉ m.map Prod.fst := by
  induction m with
  | nil => simp [lookup]
  | cons p m ih =>
    obtain ⟨a, b⟩ := p
    by_cases h : a = k
    · simp [lookup, h]
    · simp [lookup, h, ih, Ne.symm h]

theorem get?_eq_none_iff (m : GoMap κ ν) (k : κ) : m.get? k = none ↔ k ∉ m.keys :=
  lookup_eq_none_iff k m.entries

end GoMap

/-! ### C5: the `VotesRep` a vote is folded into -/

/-- C5 (evaluation at the failing input): the view holds the thread "T"; the votes
of voters "A" and "B" on "T" (content hashes "V1" and "V2") are processed in turn.
No `VotesRep` is stored under the target "T": each vote has a `VotesRep` of its
own, stored under the hash of the vote itself, with one recorded vote each. -/
theorem C5_votes_keyed_by_vote_hash :
    (Sample.view.c.get? Sample.voteA.Body.OfThread).isSome = true
    ∧ (Sample.view.c.get? Sample.voteB.Body.OfThread).isSome = true
    ∧ ((Sample.view.processVote Sample.voteA).1.processVote Sample.voteB).1.v.get? "T" = none
    ∧ ((Sample.view.processVote Sample.voteA).1.processVote Sample.voteB).1.v.keys
        = ["V1", "V2"]
    ∧ ((Sample.view.processVote Sample.voteA).1.processVote Sample.voteB).1.v.get? "V1"
        = some ⟨"V1", ⟨[("A", Sample.voteA.ToVote)]⟩, 1, 0⟩
    ∧ ((Sample.view.processVote Sample.voteA).1.processVote Sample.voteB).1.v.get? "V2"
        = some ⟨"V2", ⟨[("B", Sample.voteB.ToVote)]⟩, 1, 0⟩ := by
  decide

/-! ### C6: votes on an unknown target -/

/-- C6: a ThreadVote whose `OfThread`, or a PostVote whose `OfPost`, is not a key
of the content map makes `processVote` return no error and the view it was given:
no `VotesRep` is created and no field changes. -/
theorem C6_unknown_target_vote_dropped (v : ContentView) (c : Content)
    (h : (c.Header.Typ = .V5ThreadVoteType ∧ c.Body.OfThread ∉ v.c.keys) ∨
         (c.Header.Typ = .V5PostVoteType ∧ c.Body.OfPost ∉ v.c.keys)) :
    v.processVote c = (v, none) := by
  rcases h with ⟨ht, hk⟩ | ⟨ht, hk⟩
  · have hn := (GoMap.get?_eq_none_iff v.c c.Body.OfThread).mpr hk
    simp [ContentView.processVote, ht, hn]
  · have hn := (GoMap.get?_eq_none_iff v.c c.Body.OfPost).mpr hk
    simp [ContentView.processVote, ht, hn]

/-- C6 at a concrete input: a PostVote on the post "P", which the sample view does
not hold. -/
theorem C6_unknown_target_vote_dropped_witness :
    ((Sample.voteLost.Header.Typ = .V5ThreadVoteType ∧
        Sample.voteLost.Body.OfThread ∉ Sample.view.c.keys) ∨
      (Sample.voteLost.Header.Typ = .V5PostVoteType ∧
        Sample.voteLost.Body.OfPost ∉ Sample.view.c.keys))
    ∧ Sample.view.processVote Sample.voteLost = (Sample.view, none) :=
  ⟨Or.inr (by decide),
    C6_unknown_target_vote_dropped Sample.view Sample.voteLost (Or.inr (by decide))⟩

/-! ### C7 and C8: `ContentView.Update` -/

namespace ContentView

theorem addToVotesMap_frame (v : ContentView) (h : String) (c : Content) :
    (v.addToVotesMap h c).i = v.i ∧ (v.addToVotesMap h c).c = v.c
      ∧ (v.addToVotesMap h c).pk = v.pk := by
  simp [addToVotesMap]

theorem processVote_frame (v : ContentView) (c : Content) :
    (v.processVote c).1.i = v.i ∧ (v.processVote c).1.c = v.c
      ∧ (v.processVote c).1.pk = v.pk := by
  unfold processVote
  split
  · split
    · simp
    · exact addToVotesMap_frame v _ c
  · split
    · simp
    · exact addToVotesMap_frame v _ c
  · simp
  · simp

theorem updateItem_of_not_dispatched (v : ContentView) (c : Content)
    (h : dispatched c = false) : v.updateItem c = v := by
  simp only [dispatched, decide_eq_false_iff_not, not_or] at h
  obtain ⟨h1, h2, h3, h4⟩ := h
  cases hT : c.Header.Typ <;> simp_all [updateItem]

theorem updateItem_threads (v : ContentView) (c : Content) :
    (v.updateItem c).i.Threads = v.i.Threads ++ threadHashes [c] := by
  cases hT : c.Header.Typ <;> simp [updateItem, hT, threadHashes, processVote_frame]

theorem updateItem_posts (v : ContentView) (c : Content) (t : String) :
    ((v.updateItem c).i.Posts.get? t).getD []
      = (v.i.Posts.get? t).getD [] ++ postHashesOf t [c] := by
  cases hT : c.Header.Typ
  case V5PostType =>
    by_cases hk : t = c.Body.OfThread
    · subst hk
      simp [updateItem, postHashesOf, hT, GoMap.get?_set_self]
    · have hk2 : ¬ c.Body.OfThread = t := fun h => hk h.symm
      simp [updateItem, postHashesOf, hT, GoMap.get?_set_of_ne _ hk, hk2]
  all_goals simp [updateItem, hT, postHashesOf, processVote_frame]

theorem foldl_updateItem_threads (l : List Content) (v : ContentView) :
    (l.foldl updateItem v).i.Threads = v.i.Threads ++ threadHashes l := by
  induction l generalizing v with
  | nil => simp [threadHashes]
  | cons c l ih =>
    rw [List.foldl_cons, ih, updateItem_threads]
    simp [threadHashes, List.filter_cons]
    split <;> simp

theorem foldl_updateItem_posts (l : List Content) (v : ContentView) (t : String) :
    ((l.foldl updateItem v).i.Posts.get? t).getD []
      = (v.i.Posts.get? t).getD [] ++ postHashesOf t l := by
  induction l generalizing v with
  | nil => simp [postHashesOf]
  | cons c l ih =>
    rw [List.foldl_cons, ih, updateItem_posts]
    simp [postHashesOf, List.filter_cons]
    split <;> simp

theorem foldl_updateItem_filter (l : List Content) (v : ContentView) :
    (l.filter dispatched).foldl updateItem v = l.foldl updateItem v := by
  induction l generalizing v with
  | nil => rfl
  | cons c l ih =>
    cases hd : dispatched c
    · rw [List.filter_cons_of_neg (by simp [hd]), List.foldl_cons,
        updateItem_of_not_dispatched v c hd, ih]
    · rw [List.filter_cons_of_pos (by simp [hd]), List.foldl_cons, List.foldl_cons, ih]

/-- A successful `Update` read the board of the snapshot and folded the diff over
the view with the board replaced. -/
theorem Update_eq_ok {v v1 : ContentView} {pack : Pack} {headers : Headers}
    (h : v.Update pack headers = (v1, none)) :
    ∃ pages board, pack.GetPages = .ok pages ∧ pages.BoardPage.GetBoard = .ok board ∧
      v1 = headers.GetChanges.New.foldl updateItem (v.setBoard board) := by
  unfold Update at h
  cases hp : pack.GetPages with
  | error e => simp [hp] at h
  | ok pages =>
    cases hb : pages.BoardPage.GetBoard with
    | error e => simp [hp, hb] at h
    | ok board =>
      refine ⟨pages, board, rfl, hb, ?_⟩
      simpa [hp, hb] using h.symm

end ContentView

/-- C8: after a successful `ContentView.Update` the thread list is the old list
followed by the hashes of the Thread-tagged diff items in diff order; for every
thread hash `t` the post list of `t` (empty when `t` has no entry) is its old list
followed by the hashes of the Post-tagged diff items whose `OfThread` is `t`, in
diff order; and the items with a tag other than Thread, Post, ThreadVote and
PostVote are ignored: each leaves the view as it is, and the update on the diff
without them gives the same view. -/
theorem C8_update_appends_in_diff_order (v v1 : ContentView) (pack : Pack) (headers : Headers)
    (h : v.Update pack headers = (v1, none)) :
    v1.i.Threads = v.i.Threads ++ ContentView.threadHashes headers.GetChanges.New
    ∧ (∀ t : String, (v1.i.Posts.get? t).getD []
        = (v.i.Posts.get? t).getD [] ++ ContentView.postHashesOf t headers.GetChanges.New)
    ∧ v.Update pack ⟨⟨headers.GetChanges.New.filter ContentView.dispatched⟩⟩ = (v1, none)
    ∧ (∀ (w : ContentView) (c : Content),
        ContentView.dispatched c = false → w.updateItem c = w) := by
  obtain ⟨pages, board, hp, hb, rfl⟩ := ContentView.Update_eq_ok h
  refine ⟨?_, ?_, ?_, ?_⟩
  · rw [ContentView.foldl_updateItem_threads]
    simp [ContentView.setBoard]
  · intro t
    rw [ContentView.foldl_updateItem_posts]
    simp [ContentView.setBoard]
  · simp [ContentView.Update, hp, hb, Headers.GetChanges, ContentView.foldl_updateItem_filter]
  · intro w c hc
    exact ContentView.updateItem_of_not_dispatched w c hc

/-- C8 at a concrete input: the sample view updated with a diff of a thread, a
post, a thread vote and a user vote. -/
theorem C8_update_appends_in_diff_order_witness :
    Sample.view.Update Sample.packSame Sample.headersMixed = (Sample.viewMixed, none)
    ∧ Sample.viewMixed.i.Threads
        = Sample.view.i.Threads ++ ContentView.threadHashes Sample.headersMixed.GetChanges.New
    ∧ Sample.viewMixed.i.Threads = ["T", "T2"]
    ∧ Sample.viewMixed.i.Posts.get? "T" = some ["P1"] :=
  ⟨by decide,
    (C8_update_appends_in_diff_order Sample.view Sample.viewMixed Sample.packSame
      Sample.headersMixed (by decide)).1,
    by decide, by decide⟩

/-- C7 (counterexample): the sample view records the board "B"; the snapshot holds
the edited board "B2" and the diff is empty.  The update succeeds, the board hash
becomes "B2", the entry of "B" leaves the content map and an entry for "B2"
enters it. -/
theorem C7_empty_diff_changes_board :
    Sample.headersEmpty.GetChanges.New = []
    ∧ (Sample.view.Update Sample.packEdited Sample.headersEmpty).2 = none
    ∧ Sample.view.i.Board = "B"
    ∧ (Sample.view.Update Sample.packEdited Sample.headersEmpty).1.i.Board = "B2"
    ∧ Sample.view.c.get? "B" = some Sample.board.ToRep
    ∧ (Sample.view.Update Sample.packEdited Sample.headersEmpty).1.c.get? "B" = none
    ∧ Sample.view.c.get? "B2" = none
    ∧ (Sample.view.Update Sample.packEdited Sample.headersEmpty).1.c.get? "B2"
        = some Sample.boardEdited.ToRep := by
  decide

/-- C7 (amended): a successful `ContentView.Update` with an empty diff leaves the
thread list, the post lists and the vote tallies as they were; the board hash
becomes the hash of the snapshot's board, and the content map loses the entry of
the old board hash, maps the new board hash to the representation of the
snapshot's board and keeps every other entry.  When the snapshot's board is the
one already recorded, the board hash and every entry of the content map are as
before. -/
theorem C7_empty_diff_update (v v1 : ContentView) (pack : Pack) (headers : Headers)
    (hd : headers.GetChanges.New = []) (h : v.Update pack headers = (v1, none)) :
    v1.pk = v.pk ∧ v1.i.Threads = v.i.Threads ∧ v1.i.Posts = v.i.Posts ∧ v1.v = v.v
    ∧ ∃ pages board, pack.GetPages = .ok pages ∧ pages.BoardPage.GetBoard = .ok board
      ∧ v1.i.Board = board.Header.Hash
      ∧ (∀ k : String, v1.c.get? k =
          if k = board.Header.Hash then some board.ToRep
          else if k = v.i.Board then none else v.c.get? k)
      ∧ (board.Header.Hash = v.i.Board → v.c.get? v.i.Board = some board.ToRep →
          v1.i = v.i ∧ ∀ k : String, v1.c.get? k = v.c.get? k) := by
  obtain ⟨pages, board, hp, hb, rfl⟩ := ContentView.Update_eq_ok h
  rw [hd]
  have hc : ∀ k : String, (v.setBoard board).c.get? k =
      if k = board.Header.Hash then some board.ToRep
      else if k = v.i.Board then none else v.c.get? k := by
    intro k
    by_cases h1 : k = board.Header.Hash
    · subst h1
      simp [ContentView.setBoard, GoMap.get?_set_self]
    · by_cases h2 : k = v.i.Board
      · subst h2
        simp [ContentView.setBoard, GoMap.get?_set_of_ne _ h1, GoMap.get?_delete_self, h1]
      · simp [ContentView.setBoard, GoMap.get?_set_of_ne _ h1, GoMap.get?_delete_of_ne _ h2,
          h1, h2]
  refine ⟨rfl, rfl, rfl, rfl, pages, board, hp, hb, rfl, hc, ?_⟩
  intro hsame hrep
  refine ⟨?_, ?_⟩
  · simp [ContentView.setBoard, hsame]
  · intro k
    simp only [List.foldl_nil]
    rw [hc k]
    by_cases h1 : k = board.Header.Hash
    · simp [h1, hsame, hrep]
    · have h2 : k ≠ v.i.Board := hsame ▸ h1
      simp [h1, h2]

/-- C7 (amended) at a concrete input: the sample view updated with the snapshot
that holds its own board and an empty diff. -/
theorem C7_empty_diff_update_witness :
    Sample.headersEmpty.GetChanges.New = []
    ∧ Sample.view.Update Sample.packSame Sample.headersEmpty = (Sample.viewSame, none)
    ∧ Sample.viewSame.i.Threads = Sample.view.i.Threads
    ∧ Sample.viewSame.v = Sample.view.v :=
  ⟨by decide, by decide,
    (C7_empty_diff_update Sample.view Sample.viewSame Sample.packSame Sample.headersEmpty
      (by decide) (by decide)).2.1,
    (C7_empty_diff_update Sample.view Sample.viewSame Sample.packSame Sample.headersEmpty
      (by decide) (by decide)).2.2.2.1⟩

/-! ### C9: the lossy broadcast -/

namespace BoardInstance

theorem broadcastLoop_eq {α : Type} (cap : Nat) (hcap : 0 < cap) (x : α) (q : List α) :
    broadcastLoop cap x q = some ((q ++ [x]).drop (q.length + 1 - cap)) := by
  induction q with
  | nil =>
    have h0 : 0 + 1 - cap = 0 := by omega
    simp [broadcastLoop, hcap, h0]
  | cons y q ih =>
    by_cases hlt : (y :: q).length < cap
    · have h0 : (y :: q).length + 1 - cap = 0 := by omega
      simp only [broadcastLoop, hlt, if_true, h0, List.drop_zero]
    · have hlen : (y :: q).length + 1 - cap = (q.length + 1 - cap) + 1 := by
        simp only [List.length_cons] at hlt ⊢
        omega
      simp only [broadcastLoop, hlt, if_false, ih, hlen, List.cons_append, List.drop_succ_cons]

theorem broadcast_eq {α : Type} (ch : Chan α) (hcap : 0 < ch.cap) (x : α) :
    broadcast ch x
      = some ⟨ch.cap, (ch.buf ++ [x]).drop (ch.buf.length + 1 - ch.cap), ch.closed⟩ := by
  simp [broadcast, broadcastLoop_eq ch.cap hcap]

theorem broadcastAll_eq {α : Type} (cap : Nat) (hcap : 0 < cap) (closed : Bool)
    (xs : List α) (q : List α) (hq : q.length ≤ cap) :
    broadcastAll ⟨cap, q, closed⟩ xs
      = some ⟨cap, (q ++ xs).drop ((q ++ xs).length - cap), closed⟩ := by
  induction xs generalizing q with
  | nil =>
    have h0 : q.length - cap = 0 := by omega
    simp [broadcastAll, h0]
  | cons x xs ih =>
    have hk : q.length + 1 - cap ≤ (q ++ [x]).length := by
      simp only [List.length_append, List.length_singleton]
      omega
    have hlen : ((q ++ [x]).drop (q.length + 1 - cap)).length ≤ cap := by
      simp only [List.length_drop, List.length_append, List.length_singleton]
      omega
    simp only [broadcastAll, broadcast_eq ⟨cap, q, closed⟩ hcap x]
    rw [ih _ hlen, ← List.drop_append_of_le_length hk, List.drop_drop]
    have hL : (q ++ [x]) ++ xs = q ++ x :: xs := by simp
    rw [hL]
    congr 3
    simp only [List.length_append, List.length_drop, List.length_cons, List.length_singleton,
      List.length_nil]
    omega

end BoardInstance

/-- C9: on the channel of capacity 10 that `NewBoardInstance` makes, drained by
nobody, the broadcasts of the notifications `xs` (oldest first) all complete and
leave in the queue the last `min xs.length 10` of them in arrival order; a
broadcast completes whatever the queue holds; and 15 broadcasts leave the 10 most
recent. -/
theorem C9_broadcast_keeps_last_ten {α : Type} (xs : List α) :
    BoardInstance.broadcastAll (Chan.make 10) xs
      = some ⟨10, xs.drop (xs.length - 10), false⟩
    ∧ (xs.drop (xs.length - 10)).length = min xs.length 10
    ∧ (∀ (buf : List α) (closed : Bool) (x : α),
        ∃ ch, BoardInstance.broadcast ⟨10, buf, closed⟩ x = some ch)
    ∧ BoardInstance.newChangesChan = Chan.make 10
    ∧ BoardInstance.broadcastAll (Chan.make 10) (List.range 15)
        = some ⟨10, [5, 6, 7, 8, 9, 10, 11, 12, 13, 14], false⟩ := by
  refine ⟨?_, ?_, ?_, rfl, by decide⟩
  · have h := BoardInstance.broadcastAll_eq 10 (by decide) false xs [] (by simp)
    simpa [Chan.make] using h
  · simp only [List.length_drop]
    omega
  · intro buf closed x
    exact ⟨_, BoardInstance.broadcast_eq ⟨10, buf, closed⟩ (Nat.succ_pos 9) x⟩

/-! ### C1, C2, C3: `BoardInstance.Update` -/

theorem View.Update_of_error (view : View) (pack : Pack) (headers : Headers) (e : Error)
    (h : (view.Update pack headers).2 = some e) : (view.Update pack headers).1 = view := by
  cases view with
  | follow v => simp [View.Update, FollowView.Update] at h
  | content v =>
    simp only [View.Update] at h ⊢
    unfold ContentView.Update at h ⊢
    cases hp : pack.GetPages with
    | error e1 => simp
    | ok pages =>
      cases hb : pages.BoardPage.GetBoard with
      | error e1 => simp [hb]
      | ok board => simp [hp, hb] at h

namespace BoardInstance

/-- What the loop over the views leaves when it fails: the views before the failing
one hold the state their `Update` produced, the failing view and the views after
it are the ones before the call. -/
theorem updateViews_of_error (pack : Pack) (headers : Headers) (l : List (String × View))
    (e : Error) (h : (updateViews pack headers l).2 = some e) :
    ∃ pre id view post e0,
      l = pre ++ (id, view) :: post
      ∧ (view.Update pack headers).2 = some e0
      ∧ e = .WrapType e0 .Internal "failed to update view"
      ∧ (∀ p ∈ pre, (p.2.Update pack headers).2 = none)
      ∧ (updateViews pack headers l).1
          = pre.map (fun p => (p.1, (p.2.Update pack headers).1)) ++ (id, view) :: post := by
  induction l with
  | nil => simp [updateViews] at h
  | cons p rest ih =>
    obtain ⟨id, view⟩ := p
    cases hv : (view.Update pack headers).2 with
    | some e0 =>
      simp only [updateViews, hv] at h ⊢
      refine ⟨[], id, view, rest, e0, rfl, hv, ?_, ?_, ?_⟩
      · exact (Option.some.inj h).symm
      · simp
      · simp [View.Update_of_error view pack headers e0 hv]
    | none =>
      simp only [updateViews, hv] at h ⊢
      obtain ⟨pre, id1, view1, post, e0, hl, hf, he, hpre, hres⟩ := ih h
      refine ⟨(id, view) :: pre, id1, view1, post, e0, ?_, hf, he, ?_, ?_⟩
      · simp [hl]
      · intro q hq
        rcases List.mem_cons.mp hq with rfl | hq
        · exact hv
        · exact hpre q hq
      · simp [hres]

theorem Update_some (bi : BoardInstance) (node : Node) (r : Root) :
    bi.Update node (some r) = bi.ChangePack (fun b => b.applyRoot node r) := rfl

/-- The cases of `applyRoot`. -/
theorem applyRoot_cases (bi : BoardInstance) (node : Node) (r : Root)
    (res : BoardInstance × Except Error PackInstance)
    (h : bi.applyRoot node r = some res) :
    (∃ e, node.Unpack r = .error e ∧ res = (bi, .error e))
    ∨ (∃ newPack e, node.Unpack r = .ok newPack
        ∧ NewPackInstance (some bi.pi) newPack = .error e ∧ res = (bi, .error e))
    ∨ (∃ newPack newPI e, node.Unpack r = .ok newPack
        ∧ NewPackInstance (some bi.pi) newPack = .ok newPI
        ∧ (updateViews newPI.pack newPI.headers bi.views.entries).2 = some e
        ∧ res = ({ bi with
                    views := ⟨(updateViews newPI.pack newPI.headers bi.views.entries).1⟩ },
                  .error e))
    ∨ (∃ newPack newPI ch, node.Unpack r = .ok newPack
        ∧ NewPackInstance (some bi.pi) newPack = .ok newPI
        ∧ (updateViews newPI.pack newPI.headers bi.views.entries).2 = none
        ∧ broadcast bi.changesChan newPI.headers.GetChanges = some ch
        ∧ res = ({ bi with
                    views := ⟨(updateViews newPI.pack newPI.headers bi.views.entries).1⟩,
                    changesChan := ch },
                  .ok newPI)) := by
  unfold applyRoot at h
  cases hu : node.Unpack r with
  | error e =>
    simp only [hu] at h
    exact Or.inl ⟨e, rfl, (Option.some.inj h).symm⟩
  | ok newPack =>
    simp only [hu] at h
    cases hn : NewPackInstance (some bi.pi) newPack with
    | error e =>
      simp only [hn] at h
      exact Or.inr (Or.inl ⟨newPack, e, rfl, hn, (Option.some.inj h).symm⟩)
    | ok newPI =>
      simp only [hn] at h
      rcases hv : updateViews newPI.pack newPI.headers bi.views.entries with ⟨views1, oe⟩
      rw [hv] at h
      cases oe with
      | some e =>
        simp only at h
        refine Or.inr (Or.inr (Or.inl ⟨newPack, newPI, e, rfl, hn, by rw [hv], ?_⟩))
        rw [hv]
        exact (Option.some.inj h).symm
      | none =>
        simp only [PackInstance.Do] at h
        cases hb : broadcast bi.changesChan newPI.headers.GetChanges with
        | none => simp [hb] at h
        | some ch =>
          simp only [hb] at h
          refine Or.inr (Or.inr (Or.inr ⟨newPack, newPI, ch, rfl, hn, by rw [hv], hb, ?_⟩))
          rw [hv]
          exact (Option.some.inj h).symm

/-- A failing `applyRoot` leaves the pack instance and the queue alone. -/
theorem applyRoot_of_error (bi bi1 : BoardInstance) (node : Node) (r : Root) (e : Error)
    (h : bi.applyRoot node r = some (bi1, .error e)) :
    bi1.pi = bi.pi ∧ bi1.changesChan = bi.changesChan := by
  rcases applyRoot_cases bi node r _ h with ⟨e1, _, hr⟩ | ⟨p, e1, _, _, hr⟩ |
    ⟨p, newPI, e1, _, _, _, hr⟩ | ⟨p, newPI, ch, _, _, _, _, hr⟩
  · obtain ⟨rfl, _⟩ := Prod.mk.inj hr
    exact ⟨rfl, rfl⟩
  · obtain ⟨rfl, _⟩ := Prod.mk.inj hr
    exact ⟨rfl, rfl⟩
  · obtain ⟨rfl, _⟩ := Prod.mk.inj hr
    exact ⟨rfl, rfl⟩
  · obtain ⟨_, h2⟩ := Prod.mk.inj hr
    cases h2

/-- The cases of `ChangePack`. -/
theorem ChangePack_cases (bi bi1 : BoardInstance)
    (change : BoardInstance → Option (BoardInstance × Except Error PackInstance))
    (oe : Option Error) (h : bi.ChangePack change = some (bi1, oe)) :
    (∃ e, oe = some e ∧ change bi = some (bi1, .error e))
    ∨ (∃ b pi, oe = none ∧ change bi = some (b, .ok pi) ∧ bi1 = { b with pi := pi }) := by
  unfold ChangePack at h
  cases hc : change bi with
  | none => simp [hc] at h
  | some res =>
    obtain ⟨b, r⟩ := res
    cases r with
    | error e =>
      simp only [hc] at h
      obtain ⟨rfl, rfl⟩ := Prod.mk.inj (Option.some.inj h)
      exact Or.inl ⟨e, rfl, rfl⟩
    | ok pi =>
      simp only [hc] at h
      obtain ⟨rfl, rfl⟩ := Prod.mk.inj (Option.some.inj h)
      exact Or.inr ⟨b, pi, rfl, rfl, rfl⟩

end BoardInstance

namespace BoardInstance

theorem NewPackInstance_ok (old newPI : PackInstance) (p : Pack)
    (h : NewPackInstance (some old) p = .ok newPI) :
    newPI.pack = p ∧ old.pack.root.Seq < p.root.Seq := by
  unfold NewPackInstance at h
  by_cases hlt : old.pack.root.Seq < p.root.Seq
  · simp only [hlt, if_true] at h
    cases h
    exact ⟨rfl, hlt⟩
  · simp [hlt] at h

/-- A successful `Update` with a supplied root installs the pack instance built
from the unpacked snapshot. -/
theorem Update_some_ok (bi bi1 : BoardInstance) (node : Node) (r : Root)
    (h : bi.Update node (some r) = some (bi1, none)) :
    ∃ newPack newPI, node.Unpack r = .ok newPack
      ∧ NewPackInstance (some bi.pi) newPack = .ok newPI ∧ bi1.pi = newPI := by
  rw [Update_some] at h
  rcases ChangePack_cases bi bi1 _ none h with ⟨e, he, _⟩ | ⟨b, pi, _, hc, rfl⟩
  · cases he
  · rcases applyRoot_cases bi node r _ hc with ⟨e1, _, hr⟩ | ⟨p, e1, _, _, hr⟩ |
      ⟨p, newPI, e1, _, _, _, hr⟩ | ⟨p, newPI, ch, hu, hn, _, _, hr⟩
    · cases (Prod.mk.inj hr).2
    · cases (Prod.mk.inj hr).2
    · cases (Prod.mk.inj hr).2
    · obtain ⟨_, h2⟩ := Prod.mk.inj hr
      cases h2
      exact ⟨p, _, hu, hn, rfl⟩

theorem Update_some_seq (bi bi1 : BoardInstance) (node : Node) (r : Root)
    (h : bi.Update node (some r) = some (bi1, none)) :
    ∃ newPack, node.Unpack r = .ok newPack ∧ bi1.GetSeq = newPack.root.Seq
      ∧ bi.GetSeq < bi1.GetSeq := by
  obtain ⟨p, newPI, hu, hn, hpi⟩ := Update_some_ok bi bi1 node r h
  obtain ⟨hp, hlt⟩ := NewPackInstance_ok bi.pi newPI p hn
  refine ⟨p, hu, ?_, ?_⟩
  · simp [GetSeq, PackRead, PackInstance.Do, hpi, hp]
  · simpa [GetSeq, PackRead, PackInstance.Do, hpi, hp] using hlt

theorem updateAll_cons (node : Node) (bi bi1 : BoardInstance) (r : Root) (rs : List Root)
    (h : updateAll node bi (r :: rs) = some (bi1, none)) :
    ∃ b, bi.Update node (some r) = some (b, none) ∧ updateAll node b rs = some (bi1, none) := by
  unfold updateAll at h
  cases hu : bi.Update node (some r) with
  | none => simp [hu] at h
  | some res =>
    obtain ⟨b, oe⟩ := res
    cases oe with
    | none =>
      simp only [hu] at h
      exact ⟨b, rfl, h⟩
    | some e => simp [hu] at h

theorem updateAll_append (node : Node) (rs1 rs2 : List Root) (bi bi1 : BoardInstance)
    (h : updateAll node bi (rs1 ++ rs2) = some (bi1, none)) :
    ∃ b, updateAll node bi rs1 = some (b, none) ∧ updateAll node b rs2 = some (bi1, none) := by
  induction rs1 generalizing bi with
  | nil => exact ⟨bi, rfl, h⟩
  | cons r rs1 ih =>
    obtain ⟨b, hb, hrest⟩ := updateAll_cons node bi bi1 r (rs1 ++ rs2) h
    obtain ⟨b2, h1, h2⟩ := ih b hrest
    refine ⟨b2, ?_, h2⟩
    simp only [updateAll, hb]
    exact h1

theorem updateAll_mono (node : Node) (rs : List Root) (bi bi1 : BoardInstance)
    (h : updateAll node bi rs = some (bi1, none)) : bi.GetSeq ≤ bi1.GetSeq := by
  induction rs generalizing bi with
  | nil =>
    simp only [updateAll] at h
    cases h
    exact Nat.le_refl _
  | cons r rs ih =>
    obtain ⟨b, hb, hrest⟩ := updateAll_cons node bi bi1 r rs h
    obtain ⟨_, _, _, hlt⟩ := Update_some_seq bi b node r hb
    exact Nat.le_trans (Nat.le_of_lt hlt) (ih b hrest)

end BoardInstance

/-- C1 (counterexample): the instance ranges over a follow view and then a content
view; the snapshot of root 2 brings a user vote and `r0.GetPages` fails on it.
`Update` returns the wrapped error of the content view, and the follow view, whose
`Update` ran first, has recorded the user vote: it is not what it was before the
call. -/
theorem C1_failed_update_moves_earlier_view :
    (Sample.bi.Update Sample.node (some Sample.root2)).map (fun r => (r.1.views, r.2))
      = some (Sample.biFailed.views,
          some (.WrapType (.Newf .External "no pages") .Internal "failed to update view"))
    ∧ Sample.bi.views.get? "follow" = some (.follow ⟨GoMap.empty⟩)
    ∧ Sample.biFailed.views.get? "follow" = some (.follow Sample.followSeen)
    ∧ Sample.followSeen ≠ ⟨GoMap.empty⟩ := by
  decide

/-- C1 (amended): if `Update` with a supplied root returns an error because a
view's `Update` failed (the unpack and `NewPackInstance` succeeded), then the
installed pack instance and the notification queue are unchanged, the failing view
and every view ranged over after it are exactly what they were before the call,
and each view ranged over before the failing one holds the state its own `Update`
produced. -/
theorem C1_failed_update_views (bi bi1 : BoardInstance) (node : Node) (root : Root)
    (e : Error) (newPack : Pack) (newPI : PackInstance)
    (hu : node.Unpack root = .ok newPack)
    (hn : NewPackInstance (some bi.pi) newPack = .ok newPI)
    (h : bi.Update node (some root) = some (bi1, some e)) :
    bi1.pi = bi.pi ∧ bi1.changesChan = bi.changesChan
    ∧ ∃ pre id view post e0,
        bi.views.entries = pre ++ (id, view) :: post
        ∧ view.Update newPI.pack newPI.headers = (view, some e0)
        ∧ e = .WrapType e0 .Internal "failed to update view"
        ∧ (∀ p ∈ pre, (p.2.Update newPI.pack newPI.headers).2 = none)
        ∧ bi1.views.entries
            = pre.map (fun p => (p.1, (p.2.Update newPI.pack newPI.headers).1))
                ++ (id, view) :: post := by
  rw [BoardInstance.Update_some] at h
  rcases BoardInstance.ChangePack_cases bi bi1 _ (some e) h with
    ⟨e1, he, hc⟩ | ⟨b, pi, he, _⟩
  · cases he
    obtain ⟨hpi, hch⟩ := BoardInstance.applyRoot_of_error bi bi1 node root e hc
    refine ⟨hpi, hch, ?_⟩
    rcases BoardInstance.applyRoot_cases bi node root _ hc with ⟨e1, hu1, _⟩ |
      ⟨p, e1, hu1, hn1, _⟩ | ⟨p, newPI1, e1, hu1, hn1, hv, hr⟩ |
      ⟨p, newPI1, ch, _, _, _, _, hr⟩
    · rw [hu] at hu1
      cases hu1
    · rw [hu] at hu1
      cases hu1
      rw [hn] at hn1
      cases hn1
    · rw [hu] at hu1
      cases hu1
      rw [hn] at hn1
      cases hn1
      obtain ⟨hb, he1⟩ := Prod.mk.inj hr
      cases he1
      obtain ⟨pre, id, view, post, e0, hl, hf, hw, hpre, hres⟩ :=
        BoardInstance.updateViews_of_error newPI.pack newPI.headers bi.views.entries e hv
      refine ⟨pre, id, view, post, e0, hl, ?_, hw, hpre, ?_⟩
      · exact Prod.ext (View.Update_of_error view _ _ e0 hf) hf
      · rw [hb]
        exact hres
    · cases (Prod.mk.inj hr).2
  · cases he

/-- C1 (amended) at a concrete input: the failed update of the sample instance to
root 2. -/
theorem C1_failed_update_views_witness :
    Sample.node.Unpack Sample.root2 = .ok Sample.packBroken
    ∧ NewPackInstance (some Sample.bi.pi) Sample.packBroken
        = .ok ⟨Sample.packBroken, ⟨⟨[Sample.userVote]⟩⟩⟩
    ∧ Sample.bi.Update Sample.node (some Sample.root2)
        = some (Sample.biFailed,
            some (.WrapType (.Newf .External "no pages") .Internal "failed to update view"))
    ∧ Sample.biFailed.pi = Sample.bi.pi
    ∧ Sample.biFailed.changesChan = Sample.bi.changesChan :=
  ⟨rfl, rfl, rfl,
    (C1_failed_update_views Sample.bi Sample.biFailed Sample.node Sample.root2 _
      Sample.packBroken ⟨Sample.packBroken, ⟨⟨[Sample.userVote]⟩⟩⟩ rfl rfl rfl).1,
    (C1_failed_update_views Sample.bi Sample.biFailed Sample.node Sample.root2 _
      Sample.packBroken ⟨Sample.packBroken, ⟨⟨[Sample.userVote]⟩⟩⟩ rfl rfl rfl).2.1⟩

/-- C2: if `Update` returns an error (whatever the cause: the unpack, the check of
`NewPackInstance`, a view), the installed pack instance is the one before the
call, `GetSeq` answers the same value, and the notification queue holds what it
held.  For a supplied root this is unconditional; for the nil root of a master,
the installed snapshot is first handed to the store's `Save`, and the statement
holds when `Save` leaves that snapshot as it is. -/
theorem C2_failed_update_keeps_pack (bi bi1 : BoardInstance) (node : Node)
    (root : Option Root) (e : Error)
    (hsave : root = none → (node.Save bi.pi.pack).1 = bi.pi.pack)
    (h : bi.Update node root = some (bi1, some e)) :
    bi1.pi = bi.pi ∧ bi1.GetSeq = bi.GetSeq ∧ bi1.changesChan = bi.changesChan := by
  have key : bi1.pi = bi.pi ∧ bi1.changesChan = bi.changesChan := by
    cases root with
    | some r =>
      rw [BoardInstance.Update_some] at h
      rcases BoardInstance.ChangePack_cases bi bi1 _ (some e) h with
        ⟨e1, he, hc⟩ | ⟨b, pi, he, _⟩
      · cases he
        exact BoardInstance.applyRoot_of_error bi bi1 node r e hc
      · cases he
    | none =>
      have hs := hsave rfl
      unfold BoardInstance.Update at h
      rcases BoardInstance.ChangePack_cases bi bi1 _ (some e) h with
        ⟨e1, he, hc⟩ | ⟨b, pi, he, _⟩
      · cases he
        simp only at hc
        by_cases hm : bi.c.Master = true
        · simp only [hm, if_true, hs] at hc
          cases hsv : (node.Save bi.pi.pack).2 with
          | some e2 =>
            simp only [hsv] at hc
            obtain ⟨rfl, _⟩ := Prod.mk.inj (Option.some.inj hc)
            exact ⟨rfl, rfl⟩
          | none =>
            simp only [hsv] at hc
            cases hl : node.LastFull bi.pi.pack.root bi.c.PK with
            | error e2 =>
              simp only [hl] at hc
              obtain ⟨rfl, _⟩ := Prod.mk.inj (Option.some.inj hc)
              exact ⟨rfl, rfl⟩
            | ok r =>
              simp only [hl] at hc
              exact BoardInstance.applyRoot_of_error _ bi1 node r e hc
        · simp [hm] at hc
      · cases he
  refine ⟨key.1, ?_, key.2⟩
  simp [BoardInstance.GetSeq, BoardInstance.PackRead, PackInstance.Do, key.1]

/-- C2 at a concrete input: root 1 unpacks to a snapshot whose sequence number is
not above the installed one; `NewPackInstance` rejects it and the instance is as
before. -/
theorem C2_failed_update_keeps_pack_witness :
    ((some Sample.root1 : Option Root) = none →
        (Sample.node.Save Sample.bi.pi.pack).1 = Sample.bi.pi.pack)
    ∧ Sample.bi.Update Sample.node (some Sample.root1)
        = some (Sample.bi, some (.Newf .InvalidDiff "new pack is not ahead of the old pack"))
    ∧ Sample.bi.GetSeq = 1 :=
  ⟨fun _ => rfl, rfl,
    (C2_failed_update_keeps_pack Sample.bi Sample.bi Sample.node (some Sample.root1)
      (.Newf .InvalidDiff "new pack is not ahead of the old pack") (fun _ => rfl) rfl).2.1⟩

/-- C3: when the successive `Update` calls with the supplied roots `rs ++ [r]` all
succeed, `GetSeq` answers the sequence number of the snapshot unpacked from the
last root `r`, which is above the value before the calls; and at every point of
the sequence `GetSeq` is at least what it was before and at most what it is at the
end.  One call is the case `rs = []`. -/
theorem C3_update_installs_seq (node : Node) (bi bi1 : BoardInstance) (rs : List Root)
    (r : Root) (h : BoardInstance.updateAll node bi (rs ++ [r]) = some (bi1, none)) :
    (∃ newPack, node.Unpack r = .ok newPack ∧ bi1.GetSeq = newPack.root.Seq)
    ∧ bi.GetSeq < bi1.GetSeq
    ∧ (∀ rs1 rs2 : List Root, rs ++ [r] = rs1 ++ rs2 →
        ∃ b, BoardInstance.updateAll node bi rs1 = some (b, none)
          ∧ BoardInstance.updateAll node b rs2 = some (bi1, none)
          ∧ bi.GetSeq ≤ b.GetSeq ∧ b.GetSeq ≤ bi1.GetSeq) := by
  obtain ⟨b0, h0, hlast⟩ := BoardInstance.updateAll_append node rs [r] bi bi1 h
  obtain ⟨b1, hb1, hnil⟩ := BoardInstance.updateAll_cons node b0 bi1 r [] hlast
  have hb : b1 = bi1 := by
    simp only [BoardInstance.updateAll] at hnil
    exact (Prod.mk.inj (Option.some.inj hnil)).1
  rw [hb] at hb1
  obtain ⟨p, hu, hseq, hlt⟩ := BoardInstance.Update_some_seq b0 bi1 node r hb1
  refine ⟨⟨p, hu, hseq⟩, ?_, ?_⟩
  · exact Nat.lt_of_le_of_lt (BoardInstance.updateAll_mono node rs bi b0 h0) hlt
  · intro rs1 rs2 hsplit
    rw [hsplit] at h
    obtain ⟨b, h1, h2⟩ := BoardInstance.updateAll_append node rs1 rs2 bi bi1 h
    exact ⟨b, h1, h2, BoardInstance.updateAll_mono node rs1 bi b h1,
      BoardInstance.updateAll_mono node rs2 b bi1 h2⟩

/-- C3 at a concrete input: the sample instance, on sequence number 1, updated to
root 3. -/
theorem C3_update_installs_seq_witness :
    BoardInstance.updateAll Sample.node Sample.bi ([] ++ [Sample.root3])
      = some (Sample.biNext, none)
    ∧ Sample.bi.GetSeq = 1 ∧ Sample.biNext.GetSeq = 3
    ∧ Sample.bi.GetSeq < Sample.biNext.GetSeq :=
  ⟨rfl, rfl, rfl,
    (C3_update_installs_seq Sample.node Sample.bi Sample.biNext [] Sample.root3 rfl).2.1⟩

/-! ### C10: `Incomplete.Add` -/

/-- C10: `Add(h)` fails, with `AlreadyExists`, exactly when an entry for `h` is
registered; a failing `Add` leaves the table as it is; a succeeding `Add` answers
and registers for `h` a new single-slot channel, empty and open, and keeps every
other entry; and a second `Add(h)` right after any `Add(h)` fails with
`AlreadyExists`. -/
theorem C10_add_fails_iff_registered (i : Incomplete) (hash : String) :
    ((∃ e, (i.Add hash).2 = .error e) ↔ hash ∈ i.store.keys)
    ∧ (∀ e, (i.Add hash).2 = .error e → e.typ = .AlreadyExists ∧ (i.Add hash).1 = i)
    ∧ (hash ∉ i.store.keys →
        (i.Add hash).2 = .ok ⟨1, [], false⟩
        ∧ (i.Add hash).1.store.get? hash = some ⟨1, [], false⟩
        ∧ ∀ k : String, k ≠ hash → (i.Add hash).1.store.get? k = i.store.get? k)
    ∧ (∃ e, ((i.Add hash).1.Add hash).2 = .error e ∧ e.typ = .AlreadyExists)
    ∧ ((i.Add hash).1.Add hash).1 = (i.Add hash).1 := by
  have hreg : ∀ j : Incomplete, j.store.has hash = true ↔ hash ∈ j.store.keys := by
    intro j
    have := GoMap.get?_eq_none_iff j.store hash
    cases hg : j.store.get? hash with
    | none => simp [GoMap.has, hg, this.mp hg]
    | some c =>
      have hne : ¬ j.store.get? hash = none := by simp [hg]
      simp [GoMap.has, hg, not_not.mp (fun hn => hne (this.mpr hn))]
  have hfail : ∀ j : Incomplete, j.store.has hash = true →
      (∃ e, (j.Add hash).2 = .error e ∧ e.typ = .AlreadyExists) ∧ (j.Add hash).1 = j := by
    intro j hj
    simp [Incomplete.Add, hj, Error.typ]
  by_cases hk : hash ∈ i.store.keys
  · have hh := (hreg i).mpr hk
    refine ⟨?_, ?_, ?_, ?_, ?_⟩
    · simp [Incomplete.Add, hh, hk]
    · intro e he
      simp only [Incomplete.Add, hh, if_true] at he ⊢
      cases he
      exact ⟨rfl, trivial⟩
    · intro hn
      exact absurd hk hn
    · simp only [(hfail i hh).2]
      exact (hfail i hh).1
    · simp only [(hfail i hh).2]
  · have hh : i.store.has hash = false := by
      cases hb : i.store.has hash with
      | false => rfl
      | true => exact absurd ((hreg i).mp hb) hk
    have hadd : (i.Add hash).1 = ⟨i.store.set hash (Chan.make 1)⟩ := by
      simp [Incomplete.Add, hh]
    have hnew : (i.Add hash).1.store.has hash = true := by
      rw [hadd]
      simp [GoMap.has, GoMap.get?_set_self]
    refine ⟨?_, ?_, ?_, ?_, ?_⟩
    · simp [Incomplete.Add, hh, hk]
    · intro e he
      simp [Incomplete.Add, hh] at he
    · intro _
      refine ⟨?_, ?_, ?_⟩
      · simp [Incomplete.Add, hh, Chan.make]
      · simp [Incomplete.Add, hh, Chan.make, GoMap.get?_set_self]
      · intro k hne
        simp [Incomplete.Add, hh, GoMap.get?_set_of_ne _ hne]
    · exact (hfail _ hnew).1
    · exact (hfail _ hnew).2



/-! ### C11, C12, C13: `Incomplete.Satisfy` and `Incomplete.Remove` -/

namespace GoMap

variable {κ ν : Type} [DecidableEq κ]

theorem erase_of_not_mem (k : κ) (m : List (κ × ν)) (h : k ∉ m.map Prod.fst) :
    erase k m = m := by
  induction m with
  | nil => rfl
  | cons p m ih =>
    obtain ⟨a, b⟩ := p
    simp only [List.map_cons, List.mem_cons, not_or] at h
    have hne : ¬ a = k := fun hak => h.1 hak.symm
    simp [erase, hne, ih h.2]

theorem not_mem_keys_erase (k : κ) (m : List (κ × ν)) : k ∉ (erase k m).map Prod.fst :=
  (lookup_eq_none_iff k (erase k m)).mp (lookup_erase_self k m)

theorem not_mem_keys_delete (m : GoMap κ ν) (k : κ) : k ∉ (m.delete k).keys :=
  not_mem_keys_erase k m.entries

end GoMap

namespace Incomplete

theorem Remove_of_not_mem (i : Incomplete) (hash : String) (h : hash ∉ i.store.keys) :
    i.Remove hash = i := by
  have hn := (GoMap.get?_eq_none_iff i.store hash).mpr h
  simp [Remove, hn]

theorem Remove_store (i : Incomplete) (hash : String) :
    (i.Remove hash).store = i.store.delete hash := by
  cases hg : i.store.get? hash with
  | some c => simp [Remove, hg]
  | none =>
    have hk := (GoMap.get?_eq_none_iff i.store hash).mp hg
    simp only [Remove, hg, GoMap.delete]
    rw [GoMap.erase_of_not_mem hash i.store.entries hk]

theorem Satisfy_of_not_mem (i : Incomplete) (res : BBSResponse)
    (h : res.Hash ∉ i.store.keys) : i.Satisfy res = i := by
  have hn := (GoMap.get?_eq_none_iff i.store res.Hash).mpr h
  simp [Satisfy, hn]

theorem Satisfy_of_full (i : Incomplete) (res : BBSResponse) (c : Chan BBSResponse)
    (hg : i.store.get? res.Hash = some c) (hs : c.trySend res = none) :
    i.Satisfy res = i := by
  simp only [Satisfy, hg, hs]

theorem Satisfy_of_room (i : Incomplete) (res : BBSResponse) (c c1 : Chan BBSResponse)
    (hg : i.store.get? res.Hash = some c) (hs : c.trySend res = some c1) :
    i.Satisfy res = ⟨i.store.set res.Hash c1⟩ := by
  simp only [Satisfy, hg, hs]

theorem Satisfy_get?_of_ne (i : Incomplete) (res : BBSResponse) (k : String)
    (h : k ≠ res.Hash) : (i.Satisfy res).store.get? k = i.store.get? k := by
  cases hg : i.store.get? res.Hash with
  | none =>
    rw [Satisfy_of_not_mem i res ((GoMap.get?_eq_none_iff i.store res.Hash).mp hg)]
  | some c =>
    cases hs : c.trySend res with
    | none => rw [Satisfy_of_full i res c hg hs]
    | some c1 =>
      rw [Satisfy_of_room i res c c1 hg hs]
      exact GoMap.get?_set_of_ne _ h _

end Incomplete

/-- C11: when the entry of `h` is a single-slot channel that is empty, `Satisfy(r1)`
followed by `Satisfy(r2)`, both with hash `h`, leaves the slot holding exactly
`r1`: the first call puts `r1` in the slot, the second call returns the table it
was given. -/
theorem C11_second_satisfy_dropped (i : Incomplete) (h : String) (r1 r2 : BBSResponse)
    (hentry : i.store.get? h = some ⟨1, [], false⟩) (h1 : r1.Hash = h) (h2 : r2.Hash = h) :
    (i.Satisfy r1).store.get? h = some ⟨1, [r1], false⟩
    ∧ (i.Satisfy r1).Satisfy r2 = i.Satisfy r1
    ∧ ((i.Satisfy r1).Satisfy r2).store.get? h = some ⟨1, [r1], false⟩ := by
  subst h1
  have hs1 : i.Satisfy r1 = ⟨i.store.set r1.Hash ⟨1, [r1], false⟩⟩ :=
    Incomplete.Satisfy_of_room i r1 _ _ hentry (by simp [Chan.trySend])
  have hg : (i.Satisfy r1).store.get? r1.Hash = some ⟨1, [r1], false⟩ := by
    rw [hs1]
    exact GoMap.get?_set_self _ _ _
  have hs2 : (i.Satisfy r1).Satisfy r2 = i.Satisfy r1 :=
    Incomplete.Satisfy_of_full (i.Satisfy r1) r2 ⟨1, [r1], false⟩ (by rw [h2]; exact hg)
      (by simp [Chan.trySend])
  exact ⟨hg, hs2, by rw [hs2]; exact hg⟩

/-- C11 at a concrete input: two responses to the open request "h1". -/
theorem C11_second_satisfy_dropped_witness :
    Sample.table.store.get? "h1" = some ⟨1, [], false⟩
    ∧ ((Sample.table.Satisfy Sample.res1).Satisfy Sample.res2).store.get? "h1"
        = some ⟨1, [Sample.res1], false⟩ :=
  ⟨by decide,
    (C11_second_satisfy_dropped Sample.table "h1" Sample.res1 Sample.res2 (by decide)
      rfl rfl).2.2⟩

/-- C12: `Satisfy(r)` with no entry registered for `r.Hash` returns the table it
was given, so no channel of the table receives anything; this is so right after
`Remove(r.Hash)`; and whatever the table, `Satisfy(r)` leaves the entry of every
key other than `r.Hash` as it is. -/
theorem C12_satisfy_frame (i : Incomplete) (r : BBSResponse) :
    (r.Hash ∉ i.store.keys → i.Satisfy r = i)
    ∧ (i.Remove r.Hash).Satisfy r = i.Remove r.Hash
    ∧ (∀ k : String, k ≠ r.Hash → (i.Satisfy r).store.get? k = i.store.get? k) := by
  refine ⟨Incomplete.Satisfy_of_not_mem i r, ?_, ?_⟩
  · apply Incomplete.Satisfy_of_not_mem
    rw [Incomplete.Remove_store]
    exact GoMap.not_mem_keys_delete i.store r.Hash
  · intro k hk
    exact Incomplete.Satisfy_get?_of_ne i r k hk

/-- C13: `Remove(h)` with `h` not registered returns the table it was given; in any
case it leaves no entry for `h` and keeps the entry of every other key; a second
`Remove(h)` changes nothing more; and `Add(h)` after `Remove(h)` succeeds with a
new single-slot channel. -/
theorem C13_remove (i : Incomplete) (h : String) :
    (h ∉ i.store.keys → i.Remove h = i)
    ∧ (i.Remove h).store.get? h = none
    ∧ h ∉ (i.Remove h).store.keys
    ∧ (∀ k : String, k ≠ h → (i.Remove h).store.get? k = i.store.get? k)
    ∧ (i.Remove h).Remove h = i.Remove h
    ∧ ((i.Remove h).Add h).2 = .ok ⟨1, [], false⟩
    ∧ ((i.Remove h).Add h).1.store.get? h = some ⟨1, [], false⟩ := by
  have hnot : h ∉ (i.Remove h).store.keys := by
    rw [Incomplete.Remove_store]
    exact GoMap.not_mem_keys_delete i.store h
  have hnone : (i.Remove h).store.get? h = none :=
    (GoMap.get?_eq_none_iff _ h).mpr hnot
  have hhas : (i.Remove h).store.has h = false := by simp [GoMap.has, hnone]
  refine ⟨Incomplete.Remove_of_not_mem i h, hnone, hnot, ?_, ?_, ?_, ?_⟩
  · intro k hk
    rw [Incomplete.Remove_store]
    exact GoMap.get?_delete_of_ne i.store hk
  · exact Incomplete.Remove_of_not_mem _ h hnot
  · simp [Incomplete.Add, hhas, Chan.make]
  · simp [Incomplete.Add, hhas, Chan.make, GoMap.get?_set_self]

/-! ### C14, C15: the queries -/

/-- C14 (evaluation at the failing input): the follow view registered under
"follow" has a rep for user "A".  Asked directly for ("FollowPage", "A") the view
answers that rep's view without error; asked through `BoardInstance.Get` with the
same command and the same one argument, it receives the argument slice as its
single argument and panics on `a[0].(string)`.  An unknown view id is answered
with `NotFound`. -/
theorem C14_get_passes_slice_as_one_argument :
    Sample.biFailed.views.get? "follow" = some (.follow Sample.followSeen)
    ∧ View.Get Sample.contentGet (.follow Sample.followSeen) "FollowPage" [.str "A"]
        = .ret (some (.inl ⟨"A", ⟨[("A", (1, "friend"))]⟩⟩), none)
    ∧ BoardInstance.Get Sample.contentGet Sample.biFailed "follow" "FollowPage" [.str "A"]
        = .panic "interface conversion"
    ∧ BoardInstance.Get Sample.contentGet Sample.biFailed "nope" "FollowPage" [.str "A"]
        = .ret (none, some (.Newf .NotFound "view of id nope not found")) := by
  decide

/-- C15 (evaluation at the failing input): `FollowView.Get` with an empty argument
list panics on `a[0]`, for the id "FollowPage" and for any other id, instead of
answering `NotAllowed`.  With one string argument it answers as the claim says:
the rep's view, the empty view carrying the key, or `NotAllowed` for a wrong id
or a second argument. -/
theorem C15_get_panics_on_empty_arguments :
    Sample.followSeen.Get "FollowPage" [] = .panic "index out of range"
    ∧ Sample.followSeen.Get "Other" [] = .panic "index out of range"
    ∧ Sample.followSeen.Get "FollowPage" [.str "A"]
        = .ret (some ⟨"A", ⟨[("A", (1, "friend"))]⟩⟩, none)
    ∧ Sample.followSeen.Get "FollowPage" [.str "Z"] = .ret (some ⟨"Z", GoMap.empty⟩, none)
    ∧ Sample.followSeen.Get "Other" [.str "A"]
        = .ret (none, some (.Newf .NotAllowed "invalid get request Other"))
    ∧ Sample.followSeen.Get "FollowPage" [.str "A", .str "B"]
        = .ret (none, some (.Newf .NotAllowed "invalid get request FollowPage")) := by
  decide

/-! ### C16: `Update` with no root on an instance that is not master -/

/-- C16: on an instance that is not master, `Update` with the nil root returns no
error and the instance as it was, whatever the store would answer: the pack
instance, the views, the notification queue and the flag are the ones before. -/
theorem C16_update_nil_root_not_master (bi : BoardInstance) (node : Node)
    (h : bi.c.Master = false) :
    bi.Update node none = some (bi, none) := by
  simp [BoardInstance.Update, BoardInstance.ChangePack, h]

/-- C16 at a concrete input: the sample instance is not master. -/
theorem C16_update_nil_root_not_master_witness :
    Sample.bi.c.Master = false
    ∧ Sample.bi.Update Sample.node none = some (Sample.bi, none) :=
  ⟨rfl, C16_update_nil_root_not_master Sample.bi Sample.node rfl⟩

/-! ### C17: `FollowView.Init` and `FollowView.Update` -/

namespace GoMap

variable {κ ν : Type} [DecidableEq κ]

theorem insert_insert (k : κ) (a b : ν) (m : List (κ × ν)) :
    insert k b (insert k a m) = insert k b m := by
  induction m with
  | nil => simp [insert]
  | cons p m ih =>
    obtain ⟨x, y⟩ := p
    by_cases h : x = k
    · simp [insert, h]
    · simp [insert, h, ih]

theorem set_set (m : GoMap κ ν) (k : κ) (a b : ν) : (m.set k a).set k b = m.set k b := by
  simp [set, insert_insert]

end GoMap

namespace FollowView

theorem processContent_of_not_userVote (v : FollowView) (c : Content)
    (h : c.Body.Typ ≠ .V5UserVoteType) : v.processContent c = v := by
  simp [processContent, h]

theorem initSubmission_eq (v : FollowView) (c : Content) :
    v.initSubmission c = v.processContent c := by
  by_cases ht : c.Body.Typ = .V5UserVoteType
  · cases hg : v.uMap.get? c.Body.Creator with
    | none =>
      simp [initSubmission, processContent, ht, hg, GoMap.has, GoMap.get?_set_self,
        GoMap.set_set]
    | some r => simp [initSubmission, processContent, ht, hg, GoMap.has]
  · simp [initSubmission, processContent, ht]

theorem processContent_get?_self (v : FollowView) (c : Content)
    (h : c.Body.Typ = .V5UserVoteType) :
    (v.processContent c).uMap.get? c.Body.Creator
      = some (((v.uMap.get? c.Body.Creator).getD (NewFollowRep c.Body.Creator)).Set
          c.Body.Creator c.Body.Value c.Body.Tag) := by
  cases hg : v.uMap.get? c.Body.Creator with
  | none => simp [processContent, h, hg, GoMap.get?_set_self]
  | some r => simp [processContent, h, hg, GoMap.get?_set_self]

theorem processContent_get?_of_ne (v : FollowView) (c : Content) (k : String)
    (h : k ≠ c.Body.Creator) : (v.processContent c).uMap.get? k = v.uMap.get? k := by
  by_cases ht : c.Body.Typ = .V5UserVoteType
  · simp [processContent, ht, GoMap.get?_set_of_ne _ h]
  · simp [processContent, ht]

theorem rangeUserProfiles_eq (profiles : List UserProfile) (v : FollowView) :
    rangeUserProfiles profiles v
      = (profiles.map (fun profile => profile.Submissions)).flatten.foldl processContent v := by
  have hf : initSubmission = processContent := by
    funext w c
    exact initSubmission_eq w c
  unfold rangeUserProfiles
  rw [hf]
  induction profiles generalizing v with
  | nil => rfl
  | cons p ps ih =>
    simp only [List.foldl_cons, List.map_cons, List.flatten_cons, List.foldl_append]
    exact ih _

/-- The last user vote of a creator decides the signal recorded for that creator. -/
theorem foldl_processContent_last (S2 : List Content) (w : FollowView) (k : String)
    (sig : Int × String)
    (hw : ∃ rep, w.uMap.get? k = some rep ∧ rep.signals.get? k = some sig)
    (hS2 : ∀ d ∈ S2, d.Body.Typ = .V5UserVoteType → d.Body.Creator ≠ k) :
    ∃ rep, (S2.foldl processContent w).uMap.get? k = some rep
      ∧ rep.signals.get? k = some sig := by
  induction S2 generalizing w with
  | nil => exact hw
  | cons d S2 ih =>
    rw [List.foldl_cons]
    apply ih
    · by_cases ht : d.Body.Typ = .V5UserVoteType
      · have hne : k ≠ d.Body.Creator := fun hk => hS2 d (List.mem_cons_self _ _) ht hk.symm
        rw [processContent_get?_of_ne w d k hne]
        exact hw
      · rw [processContent_of_not_userVote w d ht]
        exact hw
    · intro e he
      exact hS2 e (List.mem_cons_of_mem _ he)

end FollowView

/-- C17: `Init` on a snapshot whose pages are read answers what `Update` answers
from the empty map on the diff made of the snapshot's user submissions in scan
order; the two loop bodies are the same function; an item that is not a UserVote
leaves the map as it is; a UserVote puts under its creator the creator's rep (a
new one if there was none) with that vote's value and tag set, and keeps every
other entry; so after a fold the signal recorded for a creator is the value and
tag of that creator's last UserVote. -/
theorem C17_init_update_same_fold (v0 : FollowView) (pack pack1 : Pack) (headers : Headers)
    (pages : Pages) (hp : pack.GetPages = .ok pages) :
    v0.Init pack headers = FollowView.Update ⟨GoMap.empty⟩ pack1 ⟨⟨pages.submissions⟩⟩
    ∧ (∀ (v : FollowView) (c : Content), v.initSubmission c = v.processContent c)
    ∧ (∀ (v : FollowView) (c : Content), c.Body.Typ ≠ .V5UserVoteType →
        v.processContent c = v)
    ∧ (∀ (v : FollowView) (c : Content), c.Body.Typ = .V5UserVoteType →
        (v.processContent c).uMap.get? c.Body.Creator
          = some (((v.uMap.get? c.Body.Creator).getD (NewFollowRep c.Body.Creator)).Set
              c.Body.Creator c.Body.Value c.Body.Tag)
        ∧ ∀ k : String, k ≠ c.Body.Creator →
            (v.processContent c).uMap.get? k = v.uMap.get? k)
    ∧ (∀ (v : FollowView) (S1 S2 : List Content) (c : Content),
        c.Body.Typ = .V5UserVoteType →
        (∀ d ∈ S2, d.Body.Typ = .V5UserVoteType → d.Body.Creator ≠ c.Body.Creator) →
        ∃ rep, ((S1 ++ c :: S2).foldl FollowView.processContent v).uMap.get? c.Body.Creator
            = some rep
          ∧ rep.signals.get? c.Body.Creator = some (c.Body.Value, c.Body.Tag)) := by
  refine ⟨?_, FollowView.initSubmission_eq, FollowView.processContent_of_not_userVote, ?_, ?_⟩
  · simp [FollowView.Init, hp, FollowView.Update, Headers.GetChanges, Pages.submissions,
      FollowView.rangeUserProfiles_eq]
  · intro v c hc
    exact ⟨FollowView.processContent_get?_self v c hc,
      fun k hk => FollowView.processContent_get?_of_ne v c k hk⟩
  · intro v S1 S2 c hc hS2
    rw [List.foldl_append, List.foldl_cons]
    apply FollowView.foldl_processContent_last S2 _ c.Body.Creator _ _ hS2
    refine ⟨_, FollowView.processContent_get?_self _ c hc, ?_⟩
    simp [FollowRep.Set, GoMap.get?_set_self]

/-- C17 at a concrete input: a snapshot with two users and two user votes of
creator "A"; the later one, of value -1 and tag "foe", is the one recorded. -/
theorem C17_init_update_same_fold_witness :
    Sample.packUsers.GetPages = .ok Sample.pagesUsers
    ∧ Sample.followSeen.Init Sample.packUsers Sample.headersEmpty
        = FollowView.Update ⟨GoMap.empty⟩ Sample.pack1 ⟨⟨Sample.pagesUsers.submissions⟩⟩
    ∧ (Sample.followSeen.Init Sample.packUsers Sample.headersEmpty).1.uMap.get? "A"
        = some ⟨"A", ⟨[("A", (-1, "foe"))]⟩⟩ :=
  ⟨rfl,
    (C17_init_update_same_fold Sample.followSeen Sample.packUsers Sample.pack1
      Sample.headersEmpty Sample.pagesUsers rfl).1,
    by decide⟩

/-! ### C18: what `VotesRep.Add` does -/

namespace VotesRep

theorem retractOld_votes (r : VotesRep) (v : Vote) :
    (r.retractOld v).Votes = r.Votes ∧ (r.retractOld v).Ref = r.Ref := by
  unfold retractOld
  cases r.Votes.get? v.Creator with
  | none => exact ⟨rfl, rfl⟩
  | some old =>
    by_cases h1 : old.Mode = 1
    · simp [h1]
    · by_cases h2 : old.Mode = -1
      · simp [h2]
      · simp [h1, h2]

theorem retractOld_counts (r : VotesRep) (v : Vote) :
    (r.retractOld v).UpCount
        = r.UpCount - (if r.recordedMode v.Creator = some 1 then 1 else 0)
    ∧ (r.retractOld v).DownCount
        = r.DownCount - (if r.recordedMode v.Creator = some (-1) then 1 else 0) := by
  unfold retractOld recordedMode
  cases r.Votes.get? v.Creator with
  | none => simp
  | some old =>
    by_cases h1 : old.Mode = 1
    · simp [h1]
    · by_cases h2 : old.Mode = -1
      · simp [h2]
      · simp [h1, h2]

end VotesRep

/-- C18: `VotesRep.Add(v)` for a vote of voter `k`: each counter loses one if the
vote recorded for `k` had its mode (nothing otherwise) and gains one if `v` has its
mode; the entry of `k` is removed if `v.Mode` is 0 and becomes `v` otherwise; the
entries of all other voters and the reference are unchanged. -/
theorem C18_add_exact (r : VotesRep) (v : Vote) :
    (r.Add v).UpCount
        = r.UpCount - (if r.recordedMode v.Creator = some 1 then 1 else 0)
            + (if v.Mode = 1 then 1 else 0)
    ∧ (r.Add v).DownCount
        = r.DownCount - (if r.recordedMode v.Creator = some (-1) then 1 else 0)
            + (if v.Mode = -1 then 1 else 0)
    ∧ (r.Add v).Votes.get? v.Creator = (if v.Mode = 0 then none else some v)
    ∧ (∀ j : String, j ≠ v.Creator → (r.Add v).Votes.get? j = r.Votes.get? j)
    ∧ (r.Add v).Ref = r.Ref := by
  obtain ⟨hv, hr⟩ := VotesRep.retractOld_votes r v
  obtain ⟨hu, hd⟩ := VotesRep.retractOld_counts r v
  by_cases h1 : v.Mode = 1
  · have hn1 : ¬ v.Mode = -1 := by omega
    have h0 : ¬ v.Mode = 0 := by omega
    refine ⟨?_, ?_, ?_, ?_, ?_⟩
    · simp [VotesRep.Add, h1, hu]
    · simp [VotesRep.Add, h1, hd]
    · simp [VotesRep.Add, h1, hv, GoMap.get?_set_self]
    · intro j hj
      simp [VotesRep.Add, h1, hv, GoMap.get?_set_of_ne _ hj]
    · simp [VotesRep.Add, h1, hr]
  · by_cases h2 : v.Mode = -1
    · have h0 : ¬ v.Mode = 0 := by omega
      refine ⟨?_, ?_, ?_, ?_, ?_⟩
      · simp [VotesRep.Add, h2, hu]
      · simp [VotesRep.Add, h2, hd]
      · simp [VotesRep.Add, h2, hv, GoMap.get?_set_self]
      · intro j hj
        simp [VotesRep.Add, h2, hv, GoMap.get?_set_of_ne _ hj]
      · simp [VotesRep.Add, h2, hr]
    · by_cases h0 : v.Mode = 0
      · refine ⟨?_, ?_, ?_, ?_, ?_⟩
        · simp [VotesRep.Add, h0, hu]
        · simp [VotesRep.Add, h0, hd]
        · simp [VotesRep.Add, h0, GoMap.get?_delete_self]
        · intro j hj
          simp [VotesRep.Add, h0, hv, GoMap.get?_delete_of_ne _ hj,
            GoMap.get?_set_of_ne _ hj]
        · simp [VotesRep.Add, h0, hr]
      · refine ⟨?_, ?_, ?_, ?_, ?_⟩
        · simp [VotesRep.Add, h1, h2, h0, hu]
        · simp [VotesRep.Add, h1, h2, h0, hd]
        · simp [VotesRep.Add, h1, h2, h0, hv, GoMap.get?_set_self]
        · intro j hj
          simp [VotesRep.Add, h1, h2, h0, hv, GoMap.get?_set_of_ne _ hj]
        · simp [VotesRep.Add, h1, h2, h0, hr]

/-! ### C20: the tally invariant -/

namespace GoMap

variable {κ ν : Type} [DecidableEq κ]

theorem count_insert (Q : ν → Bool) (k : κ) (v : ν) (m : List (κ × ν)) :
    count Q (insert k v m) + hit Q k m = count Q m + (if Q v then 1 else 0) := by
  induction m with
  | nil => simp [insert, count, hit, lookup, List.countP_cons]
  | cons p m ih =>
    obtain ⟨a, b⟩ := p
    by_cases h : a = k
    · simp only [insert, h, if_true, count, hit, lookup, List.countP_cons]
      omega
    · have ih2 := ih
      simp only [count, hit] at ih2
      simp only [insert, h, if_false, count, hit, lookup, List.countP_cons]
      omega

theorem count_erase (Q : ν → Bool) (k : κ) (m : List (κ × ν))
    (hnd : (m.map Prod.fst).Nodup) :
    count Q (erase k m) + hit Q k m = count Q m := by
  induction m with
  | nil => simp [erase, count, hit, lookup]
  | cons p m ih =>
    obtain ⟨a, b⟩ := p
    simp only [List.map_cons, List.nodup_cons] at hnd
    by_cases h : a = k
    · subst h
      rw [show erase a ((a, b) :: m) = erase a m by simp [erase],
        erase_of_not_mem a m hnd.1]
      simp only [count, hit, lookup, if_true, List.countP_cons]
    · have ih2 := ih hnd.2
      simp only [count, hit] at ih2
      simp only [erase, h, if_false, count, hit, lookup, List.countP_cons]
      omega

theorem mem_insert {k : κ} {v : ν} {m : List (κ × ν)} {p : κ × ν}
    (hp : p ∈ insert k v m) : p = (k, v) ∨ p ∈ m := by
  induction m with
  | nil =>
    simp only [insert, List.mem_singleton] at hp
    exact Or.inl hp
  | cons q m ih =>
    obtain ⟨a, b⟩ := q
    by_cases h : a = k
    · simp only [insert, h, if_true, List.mem_cons] at hp
      rcases hp with hp | hp
      · exact Or.inl hp
      · exact Or.inr (List.mem_cons_of_mem _ hp)
    · simp only [insert, h, if_false, List.mem_cons] at hp
      rcases hp with hp | hp
      · exact Or.inr (hp ▸ List.mem_cons_self _ _)
      · rcases ih hp with h1 | h1
        · exact Or.inl h1
        · exact Or.inr (List.mem_cons_of_mem _ h1)

theorem erase_sublist (k : κ) (m : List (κ × ν)) : List.Sublist (erase k m) m := by
  induction m with
  | nil => exact List.Sublist.slnil
  | cons q m ih =>
    obtain ⟨a, b⟩ := q
    by_cases h : a = k
    · simp only [erase, h, if_true]
      exact List.Sublist.cons _ (h ▸ ih)
    · simp only [erase, h, if_false]
      exact List.Sublist.cons₂ _ ih

theorem nodup_keys_erase (k : κ) (m : List (κ × ν)) (hnd : (m.map Prod.fst).Nodup) :
    ((erase k m).map Prod.fst).Nodup :=
  List.Nodup.sublist ((erase_sublist k m).map Prod.fst) hnd

theorem nodup_keys_insert (k : κ) (v : ν) (m : List (κ × ν))
    (hnd : (m.map Prod.fst).Nodup) : ((insert k v m).map Prod.fst).Nodup := by
  induction m with
  | nil => simp [insert]
  | cons q m ih =>
    obtain ⟨a, b⟩ := q
    simp only [List.map_cons, List.nodup_cons] at hnd
    by_cases h : a = k
    · subst h
      simp only [insert, if_true, List.map_cons, List.nodup_cons]
      exact hnd
    · simp only [insert, h, if_false, List.map_cons, List.nodup_cons]
      refine ⟨?_, ih hnd.2⟩
      intro hmem
      obtain ⟨p, hp, hpa⟩ := List.mem_map.mp hmem
      rcases mem_insert hp with h1 | h1
      · rw [h1] at hpa
        exact h hpa.symm
      · exact hnd.1 (List.mem_map.mpr ⟨p, h1, hpa⟩)

end GoMap

namespace VotesRep

theorem hit_eq_recordedMode (r : VotesRep) (k : String) (mode : Int) :
    GoMap.hit (fun x : Vote => decide (x.Mode = mode)) k r.Votes.entries
      = (if r.recordedMode k = some mode then 1 else 0) := by
  unfold GoMap.hit recordedMode GoMap.get?
  cases GoMap.lookup k r.Votes.entries with
  | none => simp
  | some o => simp

theorem Tallied_fill (ref : String) : (VotesRep.new.Fill ref).Tallied := by
  simp [Tallied, Fill, new, countMode, GoMap.count, GoMap.empty, GoMap.keys]

theorem Add_votes (r : VotesRep) (v : Vote) :
    (r.Add v).Votes
      = (if v.Mode = 0 then (r.Votes.set v.Creator v).delete v.Creator
          else r.Votes.set v.Creator v) := by
  obtain ⟨hv, _⟩ := retractOld_votes r v
  by_cases h1 : v.Mode = 1
  · have h0 : ¬ v.Mode = 0 := by omega
    simp [Add, h1, hv]
  · by_cases h2 : v.Mode = -1
    · have h0 : ¬ v.Mode = 0 := by omega
      simp [Add, h2, hv]
    · by_cases h0 : v.Mode = 0
      · simp [Add, h0, hv]
      · simp [Add, h1, h2, h0, hv]

theorem Add_counts (r : VotesRep) (v : Vote) :
    (r.Add v).UpCount
        = r.UpCount - (if r.recordedMode v.Creator = some 1 then 1 else 0)
            + (if v.Mode = 1 then 1 else 0)
    ∧ (r.Add v).DownCount
        = r.DownCount - (if r.recordedMode v.Creator = some (-1) then 1 else 0)
            + (if v.Mode = -1 then 1 else 0) := by
  obtain ⟨hu, hd⟩ := retractOld_counts r v
  by_cases h1 : v.Mode = 1
  · have hn1 : ¬ v.Mode = -1 := by omega
    exact ⟨by simp [Add, h1, hu], by simp [Add, h1, hd]⟩
  · by_cases h2 : v.Mode = -1
    · exact ⟨by simp [Add, h2, hu], by simp [Add, h2, hd]⟩
    · by_cases h0 : v.Mode = 0
      · exact ⟨by simp [Add, h0, hu], by simp [Add, h0, hd]⟩
      · exact ⟨by simp [Add, h1, h2, h0, hu], by simp [Add, h1, h2, h0, hd]⟩

/-- The count of a mode after `Add`, in terms of the count before. -/
theorem Add_countMode (r : VotesRep) (v : Vote) (mode : Int) (hmode : mode ≠ 0)
    (hnd : r.Votes.keys.Nodup) :
    ((r.Add v).countMode mode : Int)
      = (r.countMode mode : Int) - (if r.recordedMode v.Creator = some mode then 1 else 0)
          + (if v.Mode = mode then 1 else 0) := by
  have e1 := GoMap.count_insert (fun x : Vote => decide (x.Mode = mode)) v.Creator v
    r.Votes.entries
  have e2 := GoMap.count_erase (fun x : Vote => decide (x.Mode = mode)) v.Creator
    (GoMap.insert v.Creator v r.Votes.entries)
    (GoMap.nodup_keys_insert v.Creator v r.Votes.entries hnd)
  have e3 : GoMap.hit (fun x : Vote => decide (x.Mode = mode)) v.Creator
      (GoMap.insert v.Creator v r.Votes.entries) = (if v.Mode = mode then 1 else 0) := by
    simp [GoMap.hit, GoMap.lookup_insert_self]
  have e4 := hit_eq_recordedMode r v.Creator mode
  rw [e3] at e2
  rw [e4] at e1
  simp only [decide_eq_true_eq] at e1
  unfold countMode
  rw [Add_votes]
  by_cases h0 : v.Mode = 0
  · have hvm : ¬ v.Mode = mode := fun h => hmode (h ▸ h0)
    simp only [h0, if_true, GoMap.delete, GoMap.set]
    simp only [hvm, if_false] at e1 e2 ⊢
    split_ifs at e1 ⊢ <;> omega
  · simp only [h0, if_false, GoMap.set]
    split_ifs at e1 ⊢ <;> omega

/-- The tally invariant is kept by `Add`. -/
theorem Tallied_add (r : VotesRep) (v : Vote) (h : r.Tallied) : (r.Add v).Tallied := by
  obtain ⟨hup, hdown, hnz, hnd⟩ := h
  obtain ⟨hU, hD⟩ := Add_counts r v
  refine ⟨?_, ?_, ?_, ?_⟩
  · rw [hU, hup, Add_countMode r v 1 (by decide) hnd]
  · rw [hD, hdown, Add_countMode r v (-1) (by decide) hnd]
  · intro p hp
    rw [Add_votes] at hp
    by_cases h0 : v.Mode = 0
    · simp only [h0, if_true, GoMap.delete, GoMap.set] at hp
      have hp2 := (GoMap.erase_sublist v.Creator _).subset hp
      rcases GoMap.mem_insert hp2 with h1 | h1
      · exfalso
        have hk : v.Creator ∉ (GoMap.erase v.Creator
            (GoMap.insert v.Creator v r.Votes.entries)).map Prod.fst :=
          GoMap.not_mem_keys_erase _ _
        apply hk
        exact List.mem_map.mpr ⟨p, hp, by rw [h1]⟩
      · exact hnz p h1
    · simp only [h0, if_false, GoMap.set] at hp
      rcases GoMap.mem_insert hp with h1 | h1
      · rw [h1]
        exact h0
      · exact hnz p h1
  · rw [Add_votes]
    by_cases h0 : v.Mode = 0
    · simp only [h0, if_true, GoMap.delete, GoMap.set, GoMap.keys]
      exact GoMap.nodup_keys_erase _ _ (GoMap.nodup_keys_insert _ _ _ hnd)
    · simp only [h0, if_false, GoMap.set, GoMap.keys]
      exact GoMap.nodup_keys_insert _ _ _ hnd

theorem Tallied_foldl (votes : List Vote) (r : VotesRep) (h : r.Tallied) :
    (votes.foldl Add r).Tallied := by
  induction votes generalizing r with
  | nil => exact h
  | cons v votes ih => exact ih (r.Add v) (Tallied_add r v h)

end VotesRep

/-- C20: after any sequence of `VotesRep.Add` calls on a freshly filled `VotesRep`
(any voters, any integer modes), `UpCount` is the number of recorded votes of mode
+1 and `DownCount` the number of mode -1, no recorded vote has mode 0, no voter has
two entries, and neither counter is negative. -/
theorem C20_tally_invariant (ref : String) (votes : List Vote) :
    (votes.foldl VotesRep.Add (VotesRep.new.Fill ref)).UpCount
        = ((votes.foldl VotesRep.Add (VotesRep.new.Fill ref)).countMode 1 : Int)
    ∧ (votes.foldl VotesRep.Add (VotesRep.new.Fill ref)).DownCount
        = ((votes.foldl VotesRep.Add (VotesRep.new.Fill ref)).countMode (-1) : Int)
    ∧ (∀ p ∈ (votes.foldl VotesRep.Add (VotesRep.new.Fill ref)).Votes.entries,
        p.2.Mode ≠ 0)
    ∧ (votes.foldl VotesRep.Add (VotesRep.new.Fill ref)).Votes.keys.Nodup
    ∧ 0 ≤ (votes.foldl VotesRep.Add (VotesRep.new.Fill ref)).UpCount
    ∧ 0 ≤ (votes.foldl VotesRep.Add (VotesRep.new.Fill ref)).DownCount := by
  obtain ⟨hup, hdown, hnz, hnd⟩ :=
    VotesRep.Tallied_foldl votes _ (VotesRep.Tallied_fill ref)
  refine ⟨hup, hdown, hnz, hnd, ?_, ?_⟩
  · rw [hup]
    exact Int.natCast_nonneg _
  · rw [hdown]
    exact Int.natCast_nonneg _

/-! ### C19: `WaitSeq` -/

namespace BoardInstance

theorem waitLoop_nil_result (goal : Nat) (events : List WaitEvent)
    (h : waitLoop goal events = some none) :
    ∃ pre now post, events = pre ++ WaitEvent.tick now :: post ∧ now.GetSeq ≥ goal
      ∧ ∀ ev ∈ pre, ∃ b, ev = WaitEvent.tick b ∧ b.GetSeq < goal := by
  induction events with
  | nil => simp [waitLoop] at h
  | cons ev rest ih =>
    cases ev with
    | ctxDone err => simp [waitLoop] at h
    | tick now =>
      by_cases hg : now.GetSeq ≥ goal
      · exact ⟨[], now, rest, rfl, hg, by simp⟩
      · simp only [waitLoop, hg, if_false] at h
        obtain ⟨pre, now1, post, he, hn, hpre⟩ := ih h
        refine ⟨WaitEvent.tick now :: pre, now1, post, by simp [he], hn, ?_⟩
        intro ev hev
        rcases List.mem_cons.mp hev with rfl | hev
        · exact ⟨now, rfl, Nat.lt_of_not_ge hg⟩
        · exact hpre ev hev

theorem waitLoop_err_result (goal : Nat) (events : List WaitEvent) (e : Error)
    (h : waitLoop goal events = some (some e)) :
    ∃ pre post, events = pre ++ WaitEvent.ctxDone e :: post
      ∧ ∀ ev ∈ pre, ∃ b, ev = WaitEvent.tick b ∧ b.GetSeq < goal := by
  induction events with
  | nil => simp [waitLoop] at h
  | cons ev rest ih =>
    cases ev with
    | ctxDone err =>
      simp only [waitLoop, Option.some.injEq] at h
      subst h
      exact ⟨[], rest, rfl, by simp⟩
    | tick now =>
      by_cases hg : now.GetSeq ≥ goal
      · simp [waitLoop, hg] at h
      · simp only [waitLoop, hg, if_false] at h
        obtain ⟨pre, post, he, hpre⟩ := ih h
        refine ⟨WaitEvent.tick now :: pre, post, by simp [he], ?_⟩
        intro ev hev
        rcases List.mem_cons.mp hev with rfl | hev
        · exact ⟨now, rfl, Nat.lt_of_not_ge hg⟩
        · exact hpre ev hev

end BoardInstance

/-- C19: with `GetSeq() >= goal` at the call, `WaitSeq` returns nil whatever the
select would receive (no tick is waited for, and a context that is already done is
not looked at); in general a nil result means that the first check, or the check
at some tick reached before the context was done, saw `GetSeq() >= goal`; and any
other result is the error of the context, received while the goal was unmet at
the call and at every tick before.  The events are those the select receives, in
order; on the sample instance (sequence number 1, then 3 after its update) the
three cases are evaluated. -/
theorem C19_waitSeq (bi : BoardInstance) (goal : Nat)
    (events : List BoardInstance.WaitEvent) :
    (bi.GetSeq ≥ goal → bi.WaitSeq goal events = some none)
    ∧ (bi.WaitSeq goal events = some none →
        bi.GetSeq ≥ goal
        ∨ ∃ pre now post, events = pre ++ BoardInstance.WaitEvent.tick now :: post
            ∧ now.GetSeq ≥ goal
            ∧ ∀ ev ∈ pre, ∃ b, ev = BoardInstance.WaitEvent.tick b ∧ b.GetSeq < goal)
    ∧ (∀ e : Error, bi.WaitSeq goal events = some (some e) →
        bi.GetSeq < goal
        ∧ ∃ pre post, events = pre ++ BoardInstance.WaitEvent.ctxDone e :: post
            ∧ ∀ ev ∈ pre, ∃ b, ev = BoardInstance.WaitEvent.tick b ∧ b.GetSeq < goal)
    ∧ Sample.bi.WaitSeq 1 [.ctxDone (.Newf .External "context canceled")] = some none
    ∧ Sample.bi.WaitSeq 3 [.ctxDone (.Newf .External "context canceled")]
        = some (some (.Newf .External "context canceled"))
    ∧ Sample.bi.WaitSeq 3 [.tick Sample.bi, .tick Sample.biNext,
          .ctxDone (.Newf .External "context canceled")] = some none := by
  refine ⟨?_, ?_, ?_, by decide, by decide, by decide⟩
  · intro hg
    simp [BoardInstance.WaitSeq, hg]
  · intro h
    by_cases hg : bi.GetSeq ≥ goal
    · exact Or.inl hg
    · simp only [BoardInstance.WaitSeq, hg, if_false] at h
      exact Or.inr (BoardInstance.waitLoop_nil_result goal events h)
  · intro e h
    by_cases hg : bi.GetSeq ≥ goal
    · simp [BoardInstance.WaitSeq, hg] at h
    · simp only [BoardInstance.WaitSeq, hg, if_false] at h
      exact ⟨Nat.lt_of_not_ge hg, BoardInstance.waitLoop_err_result goal events e h⟩

/-! ### C21: the update-needed flag -/

namespace BoardInstance

theorem applyRoot_needUpdate (bi b : BoardInstance) (node : Node) (r : Root)
    (res : Except Error PackInstance) (h : bi.applyRoot node r = some (b, res)) :
    b.needUpdate = bi.needUpdate := by
  rcases applyRoot_cases bi node r _ h with ⟨e1, _, hr⟩ | ⟨p, e1, _, _, hr⟩ |
    ⟨p, newPI, e1, _, _, _, hr⟩ | ⟨p, newPI, ch, _, _, _, _, hr⟩
  all_goals
    obtain ⟨rfl, _⟩ := Prod.mk.inj hr
    rfl

/-- The closure of `Update` never assigns the flag. -/
theorem Update_closure_needUpdate (bi b : BoardInstance) (node : Node) (root : Option Root)
    (res : Except Error PackInstance)
    (h : (match root with
          | none =>
            if bi.c.Master then
              match (node.Save bi.pi.pack).2 with
              | some e =>
                some (({ bi with pi := ⟨(node.Save bi.pi.pack).1, bi.pi.headers⟩ } :
                  BoardInstance), (Except.error e : Except Error PackInstance))
              | none =>
                match node.LastFull (node.Save bi.pi.pack).1.root bi.c.PK with
                | .error e =>
                  some (({ bi with pi := ⟨(node.Save bi.pi.pack).1, bi.pi.headers⟩ } :
                    BoardInstance), .error e)
                | .ok r =>
                  ({ bi with pi := ⟨(node.Save bi.pi.pack).1, bi.pi.headers⟩ } :
                    BoardInstance).applyRoot node r
            else some (bi, .ok bi.pi)
          | some r => bi.applyRoot node r) = some (b, res)) :
    b.needUpdate = bi.needUpdate := by
  cases root with
  | some r => exact applyRoot_needUpdate bi b node r res h
  | none =>
    simp only at h
    by_cases hm : bi.c.Master = true
    · simp only [hm, if_true] at h
      cases hsv : (node.Save bi.pi.pack).2 with
      | some e =>
        simp only [hsv] at h
        obtain ⟨rfl, _⟩ := Prod.mk.inj (Option.some.inj h)
        rfl
      | none =>
        simp only [hsv] at h
        cases hl : node.LastFull (node.Save bi.pi.pack).1.root bi.c.PK with
        | error e =>
          simp only [hl] at h
          obtain ⟨rfl, _⟩ := Prod.mk.inj (Option.some.inj h)
          rfl
        | ok r =>
          simp only [hl] at h
          have hkeep := applyRoot_needUpdate _ b node r res h
          exact hkeep
    · simp only [hm] at h
      obtain ⟨rfl, _⟩ := Prod.mk.inj (Option.some.inj h)
      rfl

theorem Update_needUpdate (bi bi1 : BoardInstance) (node : Node) (root : Option Root)
    (oe : Option Error) (h : bi.Update node root = some (bi1, oe)) :
    bi1.needUpdate = bi.needUpdate := by
  unfold Update at h
  rcases ChangePack_cases bi bi1 _ oe h with ⟨e, _, hc⟩ | ⟨b, pi, _, hc, rfl⟩
  · exact Update_closure_needUpdate bi bi1 node root _ hc
  · exact Update_closure_needUpdate bi b node root _ hc

end BoardInstance

/-- C21: `PackEdit` returns the error of the action; when the action returns no
error the flag is set (`UpdateNeeded()` is true afterwards), when it fails the flag
is as it was, so from a cleared flag `UpdateNeeded()` is true afterwards exactly
when the action returned no error, and `PackEdit` never resets a set flag.
`PackRead` leaves the flag as it was, `ClearUpdateNeeded` makes it false,
`SetUpdateNeeded` makes it true, and `Update`, successful or not, leaves it as it
was.  On the sample instance a failing and a succeeding edit are evaluated. -/
theorem C21_update_needed_flag (bi : BoardInstance) (action : PackAction) :
    (bi.PackEdit action).2 = (action bi.pi.pack bi.pi.headers).2.2
    ∧ ((action bi.pi.pack bi.pi.headers).2.2 = none →
        (bi.PackEdit action).1.UpdateNeeded = true)
    ∧ (∀ e : Error, (action bi.pi.pack bi.pi.headers).2.2 = some e →
        (bi.PackEdit action).2 = some e
        ∧ (bi.PackEdit action).1.UpdateNeeded = bi.UpdateNeeded)
    ∧ (bi.UpdateNeeded = false →
        ((bi.PackEdit action).1.UpdateNeeded = true
          ↔ (action bi.pi.pack bi.pi.headers).2.2 = none))
    ∧ (bi.UpdateNeeded = true → (bi.PackEdit action).1.UpdateNeeded = true)
    ∧ (bi.afterPackRead action).UpdateNeeded = bi.UpdateNeeded
    ∧ bi.ClearUpdateNeeded.UpdateNeeded = false
    ∧ bi.SetUpdateNeeded.UpdateNeeded = true
    ∧ (∀ (node : Node) (root : Option Root) (bi1 : BoardInstance) (oe : Option Error),
        bi.Update node root = some (bi1, oe) → bi1.UpdateNeeded = bi.UpdateNeeded)
    ∧ (Sample.bi.UpdateNeeded = false
        ∧ (Sample.bi.PackEdit Sample.editFail).2 = some (.Newf .NotAllowed "no edit")
        ∧ (Sample.bi.PackEdit Sample.editFail).1.UpdateNeeded = false
        ∧ (Sample.bi.PackEdit Sample.editOk).2 = none
        ∧ (Sample.bi.PackEdit Sample.editOk).1.UpdateNeeded = true
        ∧ (Sample.bi.PackEdit Sample.editOk).1.GetSeq = 2
        ∧ Sample.biNext.UpdateNeeded = false
        ∧ ((Sample.bi.PackEdit Sample.editOk).1.PackEdit Sample.editFail).1.UpdateNeeded
            = true) := by
  have hcase : ∀ oe : Option Error, (action bi.pi.pack bi.pi.headers).2.2 = oe →
      (bi.PackEdit action).2 = oe
      ∧ (bi.PackEdit action).1.UpdateNeeded
          = (if oe = none then true else bi.UpdateNeeded) := by
    intro oe hoe
    cases oe with
    | none =>
      simp [BoardInstance.PackEdit, PackInstance.Do, hoe, BoardInstance.SetUpdateNeeded,
        BoardInstance.UpdateNeeded]
    | some e =>
      simp [BoardInstance.PackEdit, PackInstance.Do, hoe, BoardInstance.UpdateNeeded]
  refine ⟨(hcase _ rfl).1, ?_, ?_, ?_, ?_, rfl, rfl, rfl, ?_, ?_⟩
  · intro hn
    simpa using (hcase none hn).2
  · intro e he
    exact ⟨(hcase (some e) he).1, by simpa using (hcase (some e) he).2⟩
  · intro hf
    cases hoe : (action bi.pi.pack bi.pi.headers).2.2 with
    | none => simpa using (hcase none hoe).2
    | some e =>
      have := (hcase (some e) hoe).2
      simp [this, hf]
  · intro ht
    cases hoe : (action bi.pi.pack bi.pi.headers).2.2 with
    | none => simpa using (hcase none hoe).2
    | some e =>
      have := (hcase (some e) hoe).2
      simp [this, ht]
  · intro node root bi1 oe h
    exact BoardInstance.Update_needUpdate bi bi1 node root oe h
  · exact ⟨rfl, rfl, rfl, rfl, rfl, rfl, rfl, rfl⟩

end BBS
